import Mathlib

/-!
Max-concurrency rate limiter (`manager.go`, `maxconcurrencyratelimiter.go`).

A shallow embedding of the arbiter of the rate limiter: the `Manager` record, the
constructor `NewMaxConcurrencyRateLimiter`, the two transitions `tryGenerateToken` and
`releaseToken`, and the schedules of the arbiter loop together with the goroutines that
`releaseToken` starts.

Modelling conventions.

* `map[string]*Token` is a finite map with pairwise distinct keys (`TokenMap`).
* A `*Token` argument is an `Option Token`; `none` is the nil pointer.
* `panic(e)` is an error result; the fatal error of the Go runtime for unsynchronised
  map access is the error result `Abort.concurrentMap`.
* A value handed to a channel by `go func() { ch <- v }()` is appended to the list that
  stands for the channel.
* `needToken` is an `int64` changed by `atomic.AddInt64`: adding one to `2 ^ 63 - 1`
  gives `-2 ^ 63`. `limit` is only compared, never computed with.
* `tryGenerateToken` and `releaseToken` are the functions as one call executes them.
* `go m.tryGenerateToken()` starts a goroutine that runs the same statements without
  any lock, in three steps of its own: the nil check and limit test (lines 83-88), then
  either `incNeedToken` (line 89) or the factory call, the map write and the send
  (lines 93-101). Messages handled by the loop, and steps of other such goroutines, may
  fall between these steps.
* A call made by the loop is one step. A goroutine step that falls inside such a call
  reads or writes either the map or the counter, and can be moved before or after the
  call without changing the state reached, unless the two touch the map at the same
  time. That case has its own events (`acquireRace`, `releaseRace`, `grantRace`), which
  end in the runtime's fatal error; an overlap that the runtime misses has no defined
  outcome and is not represented.
-/

namespace RateLimiter

/-- Modelled from the spec: the `Token` type is declared outside the translated files; a
permit is an opaque handle whose only attribute is its unique identifier. -/
structure Token where
  ID : String
deriving DecidableEq, Repr

/-- The `Config` struct of `ratelimiter.go`. -/
structure Config where
  Limit : Int
deriving DecidableEq, Repr

/-- The two error values declared in `manager.go`. -/
inductive Err where
  | ErrInvalidLimit
  | ErrTokenFactoryNotDefined
deriving DecidableEq, Repr

/-- Modelled from the spec: the `tokenFactory` type is declared outside the translated
files; each invocation produces a permit, so a factory is the function from the number
of invocations made so far to the permit the next invocation returns. -/
abbrev tokenFactory := Nat → Token

/-- The two diagnostics `releaseToken` writes with `log.Print` / `log.Printf`. -/
inductive Diagnostic where
  | releaseNil
  | releaseNotInUse (t : Token)
deriving DecidableEq, Repr

/-! ## The active map -/

/-- Entries of a Go `map[string]*Token`: a list of bindings with pairwise distinct keys. -/
structure TokenMap where
  entries : List (String × Token)
  nodup : (entries.map Prod.fst).Nodup

namespace TokenMap

/-- The map `make(map[string]*Token)`. -/
def empty : TokenMap := ⟨[], List.nodup_nil⟩

/-- The builtin `len(m)`. -/
def len (s : TokenMap) : Nat := s.entries.length

/-- The lookup `v, ok := m[k]`: `none` when `ok` is false. -/
def lookup (k : String) (s : TokenMap) : Option Token :=
  (s.entries.find? (fun e => e.1 == k)).map Prod.snd

/-- The builtin `delete(m, k)`. -/
def erase (k : String) (s : TokenMap) : TokenMap :=
  ⟨s.entries.filter (fun e => e.1 != k),
    List.Nodup.sublist ((List.filter_sublist s.entries).map Prod.fst) s.nodup⟩

/-- The assignment `m[k] = v`. -/
def insert (k : String) (v : Token) (s : TokenMap) : TokenMap :=
  ⟨(k, v) :: s.entries.filter (fun e => e.1 != k), by
    rw [List.map_cons, List.nodup_cons]
    refine ⟨?_, List.Nodup.sublist ((List.filter_sublist s.entries).map Prod.fst) s.nodup⟩
    simp [List.mem_map, List.mem_filter]⟩

end TokenMap


/-! ## The manager -/

/-- Largest `int64`. -/
def maxInt64 : Int := 2 ^ 63 - 1

/-- Smallest `int64`. -/
def minInt64 : Int := -(2 ^ 63)

/-- The `Manager` struct. `inChan` and `releaseChan` are the inputs of the arbiter and
appear as events; `outChan` and `errorChan` list the values handed to them, oldest first.
`minted` counts the invocations of `makeToken` and `log` holds the diagnostics written.
The goroutines started by `go m.tryGenerateToken()` are counted by where they stand:
`spawned` have not reached the limit test, `queuing` found the limit reached and have
not yet run `incNeedToken`, `minting` found room and have not yet written the map. -/
structure Manager where
  errorChan : List Err
  outChan : List Token
  needToken : Int
  activeTokens : TokenMap
  limit : Int
  makeToken : Option tokenFactory
  minted : Nat
  spawned : Nat
  queuing : Nat
  minting : Nat
  log : List Diagnostic

/-- `NewManager`; the factory `NewToken` it installs is declared outside the translated
files and is a parameter. -/
def NewManager (NewToken : tokenFactory) (conf : Config) : Manager :=
  { errorChan := []
    outChan := []
    activeTokens := TokenMap.empty
    needToken := 0
    limit := conf.Limit
    makeToken := some NewToken
    minted := 0
    spawned := 0
    queuing := 0
    minting := 0
    log := [] }

/-- `incNeedToken`: `atomic.AddInt64(&m.needToken, 1)`, wrapping past the largest
`int64`. -/
def incNeedToken (m : Manager) : Manager :=
  { m with needToken :=
      if m.needToken + 1 > maxInt64 then m.needToken + 1 - 2 ^ 64 else m.needToken + 1 }

/-- `decNeedToken`: `atomic.AddInt64(&m.needToken, -1)`, wrapping past the smallest
`int64`. -/
def decNeedToken (m : Manager) : Manager :=
  { m with needToken :=
      if m.needToken + -1 < minInt64 then m.needToken + -1 + 2 ^ 64 else m.needToken + -1 }

/-- `awaitingToken`: `atomic.LoadInt64(&m.needToken) > 0`. -/
def awaitingToken (m : Manager) : Bool := decide (m.needToken > 0)

/-- `isLimitExceeded`: `len(m.activeTokens) >= m.limit`. -/
def isLimitExceeded (m : Manager) : Bool :=
  if (m.activeTokens.len : Int) ≥ m.limit then true else false

/-- `tryGenerateToken`, as one call executes it. -/
def tryGenerateToken (m : Manager) : Except Err Manager :=
  match m.makeToken with
  | none => .error Err.ErrTokenFactoryNotDefined
  | some makeToken =>
    if isLimitExceeded m then
      .ok (incNeedToken m)
    else
      let token := makeToken m.minted
      .ok { m with
        minted := m.minted + 1
        activeTokens := m.activeTokens.insert token.ID token
        outChan := m.outChan ++ [token] }

/-- `releaseToken`. The statement `go m.tryGenerateToken()` only starts the goroutine. -/
def releaseToken (m : Manager) (token : Option Token) : Manager :=
  match token with
  | none => { m with log := m.log ++ [Diagnostic.releaseNil] }
  | some t =>
    match m.activeTokens.lookup t.ID with
    | none => { m with log := m.log ++ [Diagnostic.releaseNotInUse t] }
    | some _ =>
      let m1 := { m with activeTokens := m.activeTokens.erase t.ID }
      if awaitingToken m1 then
        let m2 := decNeedToken m1
        { m2 with spawned := m2.spawned + 1 }
      else
        m1

/-- `NewMaxConcurrencyRateLimiter`: the returned manager is the state the loop starts
from. -/
def NewMaxConcurrencyRateLimiter (NewToken : tokenFactory) (conf : Config) :
    Except Err Manager :=
  if conf.Limit ≤ 0 then .error Err.ErrInvalidLimit
  else .ok (NewManager NewToken conf)

/-! ## Case analysis of the two transitions -/

/-- The state `tryGenerateToken` leaves after minting with the factory `f`. -/
def afterMint (m : Manager) (f : tokenFactory) : Manager :=
  { m with
    minted := m.minted + 1
    activeTokens := m.activeTokens.insert (f m.minted).ID (f m.minted)
    outChan := m.outChan ++ [f m.minted] }

/-- The state `releaseToken` leaves after a valid release that found a pending request. -/
def afterRelease (m : Manager) (t : Token) : Manager :=
  { m with
    activeTokens := m.activeTokens.erase t.ID
    needToken := m.needToken + -1
    spawned := m.spawned + 1 }

/-! ## Schedules -/

/-- How a run stops abnormally: a `panic` with one of the error values, or the fatal
error of the Go runtime for a map written while another goroutine reads or writes it. -/
inductive Abort where
  | panic (e : Err)
  | concurrentMap
deriving DecidableEq, Repr

/-- What can happen next. The loop receives a message on `inChan` or on `releaseChan`
and makes the call; a goroutine started by `go m.tryGenerateToken()` makes one of its
three steps; or a map write of such a goroutine falls together with a map access of the
loop (`acquireRace`, `releaseRace`) or of another such goroutine (`grantRace`). -/
inductive Event where
  | acquire
  | release (t : Option Token)
  | grantTest
  | grantQueue
  | grantInsert
  | acquireRace
  | releaseRace (t : Option Token)
  | grantRace
deriving DecidableEq, Repr

/-- The result of a call made by the loop. -/
def called (r : Except Err Manager) : Except Abort Manager :=
  match r with
  | .ok m => .ok m
  | .error e => .error (Abort.panic e)

/-- One step. A goroutine step with no goroutine at that point does nothing.
`grantTest` is lines 83-88 of a started goroutine, `grantQueue` is line 89,
`grantInsert` is lines 93-101. `acquireRace` is an acquire message handled while a
goroutine is writing the map: fatal when the loop writes the map too (line 96),
otherwise the plain call. `releaseRace` is a release message handled during such a
write: fatal when the loop reads the map (line 117), that is for a non-nil token.
`grantRace` is two goroutines writing at once. -/
def step (m : Manager) : Event → Except Abort Manager
  | .acquire => called (tryGenerateToken m)
  | .release t => .ok (releaseToken m t)
  | .grantTest =>
    if m.spawned = 0 then .ok m
    else
      match m.makeToken with
      | none => .error (Abort.panic Err.ErrTokenFactoryNotDefined)
      | some _ =>
        if isLimitExceeded m then
          .ok { m with spawned := m.spawned - 1, queuing := m.queuing + 1 }
        else
          .ok { m with spawned := m.spawned - 1, minting := m.minting + 1 }
  | .grantQueue =>
    if m.queuing = 0 then .ok m
    else .ok (incNeedToken { m with queuing := m.queuing - 1 })
  | .grantInsert =>
    if m.minting = 0 then .ok m
    else
      match m.makeToken with
      | none => .error (Abort.panic Err.ErrTokenFactoryNotDefined)
      | some f => .ok (afterMint { m with minting := m.minting - 1 } f)
  | .acquireRace =>
    if m.minting ≠ 0 ∧ m.makeToken.isSome = true ∧ isLimitExceeded m = false then
      .error Abort.concurrentMap
    else called (tryGenerateToken m)
  | .releaseRace t =>
    if m.minting ≠ 0 ∧ t.isSome = true then .error Abort.concurrentMap
    else .ok (releaseToken m t)
  | .grantRace =>
    if 2 ≤ m.minting then .error Abort.concurrentMap else .ok m

/-- The `for { select { ... } }` loop of `NewMaxConcurrencyRateLimiter`, with the
goroutines it starts, over a finite schedule; a panic or fatal error stops it. -/
def loop (m : Manager) : List Event → Except Abort Manager
  | [] => .ok m
  | e :: es =>
    match step m e with
    | .error x => .error x
    | .ok m' => loop m' es

/-- A step calls the factory: an `acquire` below the limit, or a `grantInsert` of a
goroutine that found room. -/
def mints (m : Manager) : Event → Bool
  | .acquire => !isLimitExceeded m
  | .acquireRace => !isLimitExceeded m
  | .grantInsert => decide (m.minting ≠ 0)
  | _ => false

/-- The identifier the factory would return now is not a key of the active map. -/
def freshNext (m : Manager) : Bool :=
  match m.makeToken with
  | none => true
  | some f => (m.activeTokens.lookup (f m.minted).ID).isNone

/-- Factory contract along a schedule: at every step that calls the factory, the minted
identifier is not the identifier of a permit active at that moment. -/
def freshRun (m : Manager) : List Event → Bool
  | [] => true
  | e :: es =>
    (!mints m e || freshNext m) &&
      match step m e with
      | .error _ => true
      | .ok m' => freshRun m' es

/-- `Acquire`, as the results its `select` can return in a state: `(t, nil)` for each
token handed to `outChan`, `(nil, err)` for each error handed to `errorChan`. -/
def Acquire (m : Manager) : List (Option Token × Option Err) :=
  m.outChan.map (fun t => (some t, none)) ++ m.errorChan.map (fun x => (none, some x))

/-- Number of acquire messages in a schedule. -/
def acquireCount : List Event → Nat
  | [] => 0
  | .acquire :: es => acquireCount es + 1
  | .acquireRace :: es => acquireCount es + 1
  | _ :: es => acquireCount es

/-- Number of goroutines started by `go m.tryGenerateToken()` that have not finished. -/
def grantsUnderWay (m : Manager) : Nat := m.spawned + m.queuing + m.minting

/-! ## State predicates -/

/-- Every binding of the active map has the identifier of its token as key. -/
def KeyedByID (m : Manager) : Prop := ∀ e ∈ m.activeTokens.entries, e.2.ID = e.1

/-- The permit `t` is not tracked and the factory `f`, installed in `m`, has been called
at least `n` times. -/
def Released (f : tokenFactory) (n : Nat) (t : Token) (m : Manager) : Prop :=
  m.makeToken = some f ∧ n ≤ m.minted ∧ m.activeTokens.lookup t.ID = none

/-- Of the `n` acquire messages handled so far, each has been answered with a permit, is
counted as pending, or is carried by a started goroutine that has not finished; the
pending count is not negative; each factory call handed its token to `outChan`. -/
def Accounted (n : Nat) (m : Manager) : Prop :=
  0 ≤ m.needToken ∧
    (n : Int) = (m.minted : Int) + m.needToken + (grantsUnderWay m : Int) ∧
    m.outChan.length = m.minted

/-- Nothing was ever handed to `errorChan`. -/
def NoError (m : Manager) : Prop := m.errorChan = []

/-- The state of a limiter of limit `L` with factory `f` after `k` acquire messages, all
granted: the first `k` tokens of the factory are active and were sent, newest binding
first, and nothing is pending. -/
def Filled (f : tokenFactory) (L k : Nat) (m : Manager) : Prop :=
  m.makeToken = some f ∧ m.limit = (L : Int) ∧ m.minted = k ∧ m.needToken = 0 ∧
    m.spawned = 0 ∧ m.outChan = (List.range k).map f ∧
    m.activeTokens.entries = ((List.range k).map (fun i => ((f i).ID, f i))).reverse

/-! ## Sample data -/

/-- A factory with pairwise distinct identifiers on its first calls. -/
def sampleFactory : tokenFactory := fun n =>
  match n with
  | 0 => ⟨"t0"⟩
  | 1 => ⟨"t1"⟩
  | 2 => ⟨"t2"⟩
  | _ => ⟨"t3"⟩

/-- A factory that returns the same identifier at every call. -/
def constFactory : tokenFactory := fun _ => ⟨"p"⟩

/-- A fresh limiter of limit 2. -/
def fresh2 : Manager := NewManager sampleFactory ⟨2⟩

/-- Limit 1, the permit `a` active, one request pending. -/
def fullOne : Manager :=
  { NewManager sampleFactory ⟨1⟩ with
    activeTokens := TokenMap.empty.insert "a" ⟨"a"⟩
    needToken := 1 }

/-- Limit 1, the permit `a` active, the pending count at the largest `int64`. -/
def fullMax : Manager :=
  { NewManager sampleFactory ⟨1⟩ with
    activeTokens := TokenMap.empty.insert "a" ⟨"a"⟩
    needToken := maxInt64 }

/-- Limit 2, the permits `a` and `b` active, no request pending. -/
def twoActive : Manager :=
  { NewManager sampleFactory ⟨2⟩ with
    activeTokens := (TokenMap.empty.insert "a" ⟨"a"⟩).insert "b" ⟨"b"⟩ }

/-- A fresh limiter of limit 2 whose factory field is nil. -/
def noFactory : Manager := { NewManager sampleFactory ⟨2⟩ with makeToken := none }

/-! ## Facts about the active map -/

namespace TokenMap

theorem ext_entries {s t : TokenMap} (h : s.entries = t.entries) : s = t := by
  cases s; cases t; cases h; rfl

theorem lookup_empty (k : String) : lookup k empty = none := rfl

theorem len_empty : len empty = 0 := rfl

theorem lookup_eq_none_iff (k : String) (s : TokenMap) :
    lookup k s = none ↔ ∀ e ∈ s.entries, e.1 ≠ k := by
  unfold lookup
  simp [List.find?_eq_none]

theorem lookup_erase_self (k : String) (s : TokenMap) : lookup k (erase k s) = none := by
  rw [lookup_eq_none_iff]
  intro e he
  simp only [erase, List.mem_filter] at he
  simpa using he.2

theorem find_filter_ne {k k' : String} (h : k' ≠ k) (l : List (String × Token)) :
    (l.filter (fun e => e.1 != k)).find? (fun e => e.1 == k') =
      l.find? (fun e => e.1 == k') := by
  induction l with
  | nil => rfl
  | cons a tl ih =>
    by_cases ha : a.1 = k
    · have hk : a.1 ≠ k' := fun h' => h (h'.symm.trans ha)
      simp [List.filter_cons, List.find?_cons, ha, hk, ih, ha ▸ hk]
    · by_cases hk : a.1 = k'
      · simp [List.filter_cons, List.find?_cons, hk, h]
      · simp [List.filter_cons, List.find?_cons, ha, hk, ih]

theorem lookup_erase_ne {k k' : String} (h : k' ≠ k) (s : TokenMap) :
    lookup k' (erase k s) = lookup k' s := by
  unfold lookup erase
  simp only
  rw [find_filter_ne h]

theorem lookup_insert_self (k : String) (v : Token) (s : TokenMap) :
    lookup k (insert k v s) = some v := by
  simp [lookup, insert, List.find?_cons]

theorem lookup_insert_ne {k k' : String} (h : k' ≠ k) (v : Token) (s : TokenMap) :
    lookup k' (insert k v s) = lookup k' s := by
  unfold lookup insert
  simp only
  rw [List.find?_cons]
  have hk : (k == k') = false := by simpa using fun h' => h h'.symm
  simp only [hk]
  rw [find_filter_ne h]

theorem erase_of_lookup_none {k : String} {s : TokenMap} (h : lookup k s = none) :
    erase k s = s := by
  apply ext_entries
  rw [lookup_eq_none_iff] at h
  simp only [erase]
  rw [List.filter_eq_self]
  intro e he
  simpa using h e he

theorem length_filter_of_mem (k : String) :
    ∀ l : List (String × Token), (l.map Prod.fst).Nodup → k ∈ l.map Prod.fst →
      (l.filter (fun e => e.1 != k)).length + 1 = l.length
  | [], _, h => by simp at h
  | a :: tl, hn, hm => by
    rw [List.map_cons, List.nodup_cons] at hn
    by_cases ha : a.1 = k
    · have hself : tl.filter (fun e => e.1 != k) = tl := by
        rw [List.filter_eq_self]
        intro e he
        have : e.1 ≠ k := by
          intro hek
          apply hn.1
          rw [ha, ← hek]
          exact List.mem_map_of_mem Prod.fst he
        simpa using this
      simp [List.filter_cons, ha, hself]
    · have hm' : k ∈ tl.map Prod.fst := by
        rw [List.map_cons, List.mem_cons] at hm
        rcases hm with h | h
        · exact absurd h.symm ha
        · exact h
      have ih := length_filter_of_mem k tl hn.2 hm'
      simp [List.filter_cons, ha, ih]

theorem mem_keys_of_lookup {k : String} {s : TokenMap} (h : lookup k s ≠ none) :
    k ∈ s.entries.map Prod.fst := by
  rw [Ne, lookup_eq_none_iff] at h
  push_neg at h
  obtain ⟨e, he, hek⟩ := h
  rw [← hek]
  exact List.mem_map_of_mem Prod.fst he

theorem len_erase_of_mem {k : String} {s : TokenMap} (h : lookup k s ≠ none) :
    len (erase k s) + 1 = len s :=
  length_filter_of_mem k s.entries s.nodup (mem_keys_of_lookup h)

theorem len_erase_le (k : String) (s : TokenMap) : len (erase k s) ≤ len s :=
  List.length_filter_le _ _

theorem len_insert (k : String) (v : Token) (s : TokenMap) :
    len (insert k v s) = len (erase k s) + 1 := rfl

theorem len_insert_of_not_mem {k : String} (v : Token) {s : TokenMap}
    (h : lookup k s = none) : len (insert k v s) = len s + 1 := by
  rw [len_insert, erase_of_lookup_none h]

theorem len_insert_of_mem {k : String} (v : Token) {s : TokenMap}
    (h : lookup k s ≠ none) : len (insert k v s) = len s := by
  rw [len_insert, len_erase_of_mem h]

theorem len_insert_le (k : String) (v : Token) (s : TokenMap) :
    len (insert k v s) ≤ len s + 1 := by
  rw [len_insert]
  exact Nat.succ_le_succ (len_erase_le k s)

theorem erase_insert_of_not_mem {k : String} (v : Token) {s : TokenMap}
    (h : lookup k s = none) : erase k (insert k v s) = s := by
  apply ext_entries
  have h1 := congrArg TokenMap.entries (erase_of_lookup_none h)
  simp only [erase] at h1
  simp [erase, insert, List.filter_cons, List.filter_filter, h1]

end TokenMap

/-! ## Shared facts about the transitions -/

theorem isLimitExceeded_iff (m : Manager) :
    isLimitExceeded m = true ↔ (m.activeTokens.len : Int) ≥ m.limit := by
  unfold isLimitExceeded
  by_cases h : (m.activeTokens.len : Int) ≥ m.limit <;> simp [h]

theorem isLimitExceeded_false_iff (m : Manager) :
    isLimitExceeded m = false ↔ (m.activeTokens.len : Int) < m.limit := by
  unfold isLimitExceeded
  by_cases h : (m.activeTokens.len : Int) ≥ m.limit
  · simp [h]
  · simp only [h, if_false, true_iff]
    exact not_le.mp h

theorem incNeedToken_needToken {m : Manager} (h : m.needToken < maxInt64) :
    (incNeedToken m).needToken = m.needToken + 1 := by
  have : ¬ (m.needToken + 1 > maxInt64) := by omega
  simp [incNeedToken, this]

theorem tryGenerateToken_cases (m : Manager) :
    (m.makeToken = none ∧ tryGenerateToken m = .error Err.ErrTokenFactoryNotDefined) ∨
    (∃ f, m.makeToken = some f ∧ (m.activeTokens.len : Int) ≥ m.limit ∧
      tryGenerateToken m = .ok (incNeedToken m)) ∨
    (∃ f, m.makeToken = some f ∧ (m.activeTokens.len : Int) < m.limit ∧
      tryGenerateToken m = .ok (afterMint m f)) := by
  cases hf : m.makeToken with
  | none => exact Or.inl ⟨rfl, by simp [tryGenerateToken, hf]⟩
  | some f =>
    cases hl : isLimitExceeded m with
    | true =>
      exact Or.inr (Or.inl ⟨f, rfl, (isLimitExceeded_iff m).mp hl,
        by simp [tryGenerateToken, hf, hl]⟩)
    | false =>
      exact Or.inr (Or.inr ⟨f, rfl, (isLimitExceeded_false_iff m).mp hl,
        by simp [tryGenerateToken, hf, hl, afterMint]⟩)

theorem releaseToken_cases (m : Manager) (token : Option Token) :
    (token = none ∧
      releaseToken m token = { m with log := m.log ++ [Diagnostic.releaseNil] }) ∨
    (∃ t, token = some t ∧ m.activeTokens.lookup t.ID = none ∧
      releaseToken m token = { m with log := m.log ++ [Diagnostic.releaseNotInUse t] }) ∨
    (∃ t, token = some t ∧ m.activeTokens.lookup t.ID ≠ none ∧ 0 < m.needToken ∧
      releaseToken m token = afterRelease m t) ∨
    (∃ t, token = some t ∧ m.activeTokens.lookup t.ID ≠ none ∧ ¬ 0 < m.needToken ∧
      releaseToken m token = { m with activeTokens := m.activeTokens.erase t.ID }) := by
  cases token with
  | none => exact Or.inl ⟨rfl, rfl⟩
  | some t =>
    cases hl : m.activeTokens.lookup t.ID with
    | none => exact Or.inr (Or.inl ⟨t, rfl, hl, by simp [releaseToken, hl]⟩)
    | some v =>
      by_cases hn : 0 < m.needToken
      · have hw : ¬ (m.needToken + -1 < minInt64) := by
          unfold minInt64
          omega
        exact Or.inr (Or.inr (Or.inl ⟨t, rfl, by simp [hl], hn,
          by simp [releaseToken, hl, awaitingToken, hn, decNeedToken, afterRelease, hw]⟩))
      · exact Or.inr (Or.inr (Or.inr ⟨t, rfl, by simp [hl], hn,
          by simp [releaseToken, hl, awaitingToken, hn]⟩))

/-- A successful step for an acquire message is the call of `tryGenerateToken`. -/
theorem step_acquire_ok {m m' : Manager} {e : Event}
    (he : e = .acquire ∨ e = .acquireRace) (h : step m e = .ok m') :
    tryGenerateToken m = .ok m' := by
  have hcalled : called (tryGenerateToken m) = .ok m' → tryGenerateToken m = .ok m' := by
    intro hc
    cases ht : tryGenerateToken m with
    | error x => simp [called, ht] at hc
    | ok m1 =>
      simp only [called, ht, Except.ok.injEq] at hc
      rw [hc]
  rcases he with rfl | rfl
  · exact hcalled h
  · simp only [step] at h
    split at h
    · cases h
    · exact hcalled h

/-- Every other successful step is one of five moves, or does nothing. -/
theorem step_other_ok {m m' : Manager} {e : Event}
    (he : e ≠ .acquire) (he' : e ≠ .acquireRace) (h : step m e = .ok m') :
    m' = m ∨ (∃ t, m' = releaseToken m t) ∨
    (m.spawned ≠ 0 ∧ (m.activeTokens.len : Int) ≥ m.limit ∧
      m' = { m with spawned := m.spawned - 1, queuing := m.queuing + 1 }) ∨
    (m.spawned ≠ 0 ∧ (m.activeTokens.len : Int) < m.limit ∧
      m' = { m with spawned := m.spawned - 1, minting := m.minting + 1 }) ∨
    (m.queuing ≠ 0 ∧ m' = incNeedToken { m with queuing := m.queuing - 1 }) ∨
    (m.minting ≠ 0 ∧ ∃ f, m.makeToken = some f ∧
      m' = afterMint { m with minting := m.minting - 1 } f) := by
  cases e with
  | acquire => exact absurd rfl he
  | acquireRace => exact absurd rfl he'
  | release t =>
    simp only [step, Except.ok.injEq] at h
    exact Or.inr (Or.inl ⟨t, h.symm⟩)
  | grantTest =>
    simp only [step] at h
    by_cases hs : m.spawned = 0
    · simp only [hs, if_true, Except.ok.injEq] at h
      exact Or.inl h.symm
    · simp only [hs, if_false] at h
      cases hf : m.makeToken with
      | none => simp [hf] at h
      | some f =>
        simp only [hf] at h
        cases hl : isLimitExceeded m with
        | true =>
          simp only [hl, if_true, Except.ok.injEq] at h
          exact Or.inr (Or.inr (Or.inl ⟨hs, (isLimitExceeded_iff m).mp hl, h.symm⟩))
        | false =>
          simp only [hl, Bool.false_eq_true, if_false, Except.ok.injEq] at h
          exact Or.inr (Or.inr (Or.inr (Or.inl
            ⟨hs, (isLimitExceeded_false_iff m).mp hl, h.symm⟩)))
  | grantQueue =>
    simp only [step] at h
    by_cases hs : m.queuing = 0
    · simp only [hs, if_true, Except.ok.injEq] at h
      exact Or.inl h.symm
    · simp only [hs, if_false, Except.ok.injEq] at h
      exact Or.inr (Or.inr (Or.inr (Or.inr (Or.inl ⟨hs, h.symm⟩))))
  | grantInsert =>
    simp only [step] at h
    by_cases hs : m.minting = 0
    · simp only [hs, if_true, Except.ok.injEq] at h
      exact Or.inl h.symm
    · simp only [hs, if_false] at h
      cases hf : m.makeToken with
      | none => simp [hf] at h
      | some f =>
        simp only [hf, Except.ok.injEq] at h
        exact Or.inr (Or.inr (Or.inr (Or.inr (Or.inr ⟨hs, f, rfl, h.symm⟩))))
  | releaseRace t =>
    simp only [step] at h
    split at h
    · cases h
    · simp only [Except.ok.injEq] at h
      exact Or.inr (Or.inl ⟨t, h.symm⟩)
  | grantRace =>
    simp only [step] at h
    split at h
    · cases h
    · simp only [Except.ok.injEq] at h
      exact Or.inl h.symm

/-- Every successful step is one of six moves, or does nothing. -/
theorem step_cases {m m' : Manager} {e : Event} (h : step m e = .ok m') :
    m' = m ∨ tryGenerateToken m = .ok m' ∨ (∃ t, m' = releaseToken m t) ∨
    (m.spawned ≠ 0 ∧ (m.activeTokens.len : Int) ≥ m.limit ∧
      m' = { m with spawned := m.spawned - 1, queuing := m.queuing + 1 }) ∨
    (m.spawned ≠ 0 ∧ (m.activeTokens.len : Int) < m.limit ∧
      m' = { m with spawned := m.spawned - 1, minting := m.minting + 1 }) ∨
    (m.queuing ≠ 0 ∧ m' = incNeedToken { m with queuing := m.queuing - 1 }) ∨
    (m.minting ≠ 0 ∧ ∃ f, m.makeToken = some f ∧
      m' = afterMint { m with minting := m.minting - 1 } f) := by
  by_cases he : e = .acquire ∨ e = .acquireRace
  · exact Or.inr (Or.inl (step_acquire_ok he h))
  · rw [not_or] at he
    rcases step_other_ok he.1 he.2 h with h1 | h1 | h1 | h1 | h1 | h1
    · exact Or.inl h1
    · exact Or.inr (Or.inr (Or.inl h1))
    · exact Or.inr (Or.inr (Or.inr (Or.inl h1)))
    · exact Or.inr (Or.inr (Or.inr (Or.inr (Or.inl h1))))
    · exact Or.inr (Or.inr (Or.inr (Or.inr (Or.inr (Or.inl h1)))))
    · exact Or.inr (Or.inr (Or.inr (Or.inr (Or.inr (Or.inr h1)))))

/-- A property kept by the moves is kept by every step. -/
theorem step_preserves (P : Manager → Prop)
    (hcount : ∀ m s q g, P m → P { m with spawned := s, queuing := q, minting := g })
    (hinc : ∀ m, P m → P (incNeedToken m))
    (hmint : ∀ m f, m.makeToken = some f → P m → P (afterMint m f))
    (hrel : ∀ m t, P m → P (releaseToken m t))
    (m : Manager) (e : Event) (m' : Manager) (hP : P m) (h : step m e = .ok m') : P m' := by
  rcases step_cases h with rfl | ht | ⟨t, rfl⟩ | ⟨_, _, rfl⟩ | ⟨_, _, rfl⟩ | ⟨_, rfl⟩ |
    ⟨_, f, hf, rfl⟩
  · exact hP
  · rcases tryGenerateToken_cases m with ⟨_, h1⟩ | ⟨f, _, _, h1⟩ | ⟨f, hf, _, h1⟩
    · rw [h1] at ht; cases ht
    · rw [h1] at ht; cases ht; exact hinc m hP
    · rw [h1] at ht; cases ht; exact hmint m f hf hP
  · exact hrel m t hP
  · exact hcount m _ _ _ hP
  · exact hcount m _ _ _ hP
  · exact hinc _ (hcount m _ _ _ hP)
  · exact hmint _ f hf (hcount m _ _ _ hP)

theorem releaseToken_makeToken (m : Manager) (token : Option Token) :
    (releaseToken m token).makeToken = m.makeToken ∧
    (releaseToken m token).limit = m.limit := by
  rcases releaseToken_cases m token with ⟨_, h⟩ | ⟨t, _, _, h⟩ | ⟨t, _, _, _, h⟩ |
    ⟨t, _, _, _, h⟩ <;> rw [h] <;> exact ⟨rfl, rfl⟩

theorem tryGenerateToken_makeToken {m m' : Manager} (h : tryGenerateToken m = .ok m') :
    m'.makeToken = m.makeToken ∧ m'.limit = m.limit := by
  rcases tryGenerateToken_cases m with ⟨_, h1⟩ | ⟨f, _, _, h1⟩ | ⟨f, _, _, h1⟩
  · rw [h1] at h; cases h
  · rw [h1] at h; cases h; exact ⟨rfl, rfl⟩
  · rw [h1] at h; cases h; exact ⟨rfl, rfl⟩

theorem step_makeToken {m m' : Manager} {e : Event} (h : step m e = .ok m') :
    m'.makeToken = m.makeToken ∧ m'.limit = m.limit := by
  rcases step_cases h with rfl | ht | ⟨t, rfl⟩ | ⟨_, _, rfl⟩ | ⟨_, _, rfl⟩ | ⟨_, rfl⟩ |
    ⟨_, f, hf, rfl⟩
  · exact ⟨rfl, rfl⟩
  · exact tryGenerateToken_makeToken ht
  · exact releaseToken_makeToken m t
  · exact ⟨rfl, rfl⟩
  · exact ⟨rfl, rfl⟩
  · exact ⟨rfl, rfl⟩
  · exact ⟨rfl, rfl⟩

/-- With a factory installed a step ends in a state or in the runtime's fatal error for
the map; it never panics. -/
theorem step_ok_or_race (m : Manager) (f : tokenFactory) (hf : m.makeToken = some f)
    (e : Event) : (∃ m', step m e = .ok m') ∨ step m e = .error Abort.concurrentMap := by
  have htry : ∃ m', called (tryGenerateToken m) = .ok m' := by
    rcases tryGenerateToken_cases m with ⟨h0, _⟩ | ⟨_, _, _, h1⟩ | ⟨_, _, _, h1⟩
    · rw [hf] at h0; cases h0
    · exact ⟨_, by rw [h1]; rfl⟩
    · exact ⟨_, by rw [h1]; rfl⟩
  cases e with
  | acquire => exact Or.inl htry
  | release t => exact Or.inl ⟨_, rfl⟩
  | grantTest =>
    left
    simp only [step, hf]
    split
    · exact ⟨_, rfl⟩
    · split
      · exact ⟨_, rfl⟩
      · exact ⟨_, rfl⟩
  | grantQueue =>
    left
    simp only [step]
    split
    · exact ⟨_, rfl⟩
    · exact ⟨_, rfl⟩
  | grantInsert =>
    left
    simp only [step, hf]
    split
    · exact ⟨_, rfl⟩
    · exact ⟨_, rfl⟩
  | acquireRace =>
    simp only [step]
    split
    · exact Or.inr rfl
    · exact Or.inl htry
  | releaseRace t =>
    simp only [step]
    split
    · exact Or.inr rfl
    · exact Or.inl ⟨_, rfl⟩
  | grantRace =>
    simp only [step]
    split
    · exact Or.inr rfl
    · exact Or.inl ⟨_, rfl⟩

theorem loop_cons_ok {m m1 : Manager} {e : Event} (h : step m e = .ok m1) (es : List Event) :
    loop m (e :: es) = loop m1 es := by
  simp [loop, h]

theorem loop_cons_error {m : Manager} {e : Event} {x : Abort} (h : step m e = .error x)
    (es : List Event) : loop m (e :: es) = .error x := by
  simp [loop, h]

/-- With a factory installed the loop ends in a state or in the runtime's fatal error
for the map; it never panics. -/
theorem loop_ok_or_race (f : tokenFactory) :
    ∀ (es : List Event) (m : Manager), m.makeToken = some f →
      (∃ m', loop m es = .ok m') ∨ loop m es = .error Abort.concurrentMap
  | [], m, _ => Or.inl ⟨m, rfl⟩
  | e :: es, m, hf => by
    rcases step_ok_or_race m f hf e with ⟨m1, h1⟩ | herr
    · rw [loop_cons_ok h1]
      exact loop_ok_or_race f es m1 ((step_makeToken h1).1.trans hf)
    · exact Or.inr (loop_cons_error herr es)

/-- A property kept by every step is kept by the loop. -/
theorem loop_preserves (P : Manager → Prop)
    (hstep : ∀ m e m', P m → step m e = .ok m' → P m') :
    ∀ (es : List Event) (m m' : Manager), P m → loop m es = .ok m' → P m'
  | [], m, m', hP, h => by
    simp only [loop, Except.ok.injEq] at h
    subst h
    exact hP
  | e :: es, m, m', hP, h => by
    cases h1 : step m e with
    | error x => simp [loop, h1] at h
    | ok m1 =>
      rw [loop_cons_ok h1] at h
      exact loop_preserves P hstep es m1 m' (hstep m e m1 hP h1) h

/-- From a state with a factory and a property kept by every step: the loop ends in a
state with the property, or in the runtime's fatal error for the map. -/
theorem loop_reaches (P : Manager → Prop)
    (hstep : ∀ m e m', P m → step m e = .ok m' → P m') (f : tokenFactory) (m : Manager)
    (hf : m.makeToken = some f) (hP : P m) (es : List Event) :
    (∃ m', loop m es = .ok m' ∧ P m') ∨ loop m es = .error Abort.concurrentMap := by
  rcases loop_ok_or_race f es m hf with ⟨m', h⟩ | h
  · exact Or.inl ⟨m', h, loop_preserves P hstep es m m' hP h⟩
  · exact Or.inr h

theorem loop_append_ok :
    ∀ (es es' : List Event) (m m1 : Manager), loop m es = .ok m1 →
      loop m (es ++ es') = loop m1 es'
  | [], es', m, m1, h => by
    simp only [loop, Except.ok.injEq] at h
    subst h
    rfl
  | e :: es, es', m, m1, h => by
    cases h1 : step m e with
    | error x => simp [loop, h1] at h
    | ok m2 =>
      rw [loop_cons_ok h1] at h
      rw [List.cons_append, loop_cons_ok h1]
      exact loop_append_ok es es' m2 m1 h

theorem newLimiter_eq {NewToken : tokenFactory} {conf : Config} {m0 : Manager}
    (h : NewMaxConcurrencyRateLimiter NewToken conf = .ok m0) :
    0 < conf.Limit ∧ m0 = NewManager NewToken conf := by
  unfold NewMaxConcurrencyRateLimiter at h
  by_cases hl : conf.Limit ≤ 0
  · simp [hl] at h
  · simp only [hl, if_false, Except.ok.injEq] at h
    exact ⟨not_le.mp hl, h.symm⟩

/-! ## Capacity -/

/-- C1, code bug: with limit 1, after two acquire messages and the release of the first
permit, the goroutine started by the release passes the limit test while the map is
empty; the loop then handles a third acquire message, which passes the same test and
stores its permit; the goroutine then stores its own. Two permits are active at limit 1.
The factory's identifiers are pairwise distinct and no fatal error or panic occurs. -/
theorem capacity_exceeded_by_racing_grant :
    NewMaxConcurrencyRateLimiter sampleFactory ⟨1⟩ = .ok (NewManager sampleFactory ⟨1⟩) ∧
    ∃ m, loop (NewManager sampleFactory ⟨1⟩)
        [.acquire, .acquire, .release (some ⟨"t0"⟩), .grantTest, .acquire, .grantInsert] =
          .ok m ∧
      m.limit = 1 ∧ m.activeTokens.len = 2 ∧ ¬ ((m.activeTokens.len : Int) ≤ m.limit) ∧
      m.activeTokens.lookup "t1" = some ⟨"t1"⟩ ∧ m.activeTokens.lookup "t2" = some ⟨"t2"⟩ ∧
      m.outChan = [⟨"t0"⟩, ⟨"t1"⟩, ⟨"t2"⟩] ∧ m.needToken = 0 ∧ grantsUnderWay m = 0 :=
  ⟨rfl, _, rfl, rfl, rfl, by decide, rfl, rfl, rfl, rfl, rfl⟩

/-! ## Uniqueness -/

theorem TokenMap.mem_of_lookup {k : String} {t : Token} {s : TokenMap}
    (h : TokenMap.lookup k s = some t) : (k, t) ∈ s.entries := by
  unfold TokenMap.lookup at h
  rw [Option.map_eq_some'] at h
  obtain ⟨e, he, rfl⟩ := h
  have hk : e.1 = k := by simpa using List.find?_some he
  have hm := List.mem_of_find?_eq_some he
  rw [← hk]
  exact hm

theorem afterMint_keyed (m : Manager) (f : tokenFactory) (hP : KeyedByID m) :
    KeyedByID (afterMint m f) := by
  intro e he
  simp only [afterMint, TokenMap.insert, List.mem_cons, List.mem_filter] at he
  rcases he with rfl | ⟨he, _⟩
  · rfl
  · exact hP e he

theorem releaseToken_keyed (m : Manager) (token : Option Token) (hP : KeyedByID m) :
    KeyedByID (releaseToken m token) := by
  rcases releaseToken_cases m token with ⟨_, h⟩ | ⟨t, _, _, h⟩ | ⟨t, _, _, _, h⟩ |
    ⟨t, _, _, _, h⟩
  · rw [h]; exact hP
  · rw [h]; exact hP
  · rw [h]
    intro e he
    simp only [afterRelease, TokenMap.erase, List.mem_filter] at he
    exact hP e he.1
  · rw [h]
    intro e he
    simp only [TokenMap.erase, List.mem_filter] at he
    exact hP e he.1

theorem step_keyed (m : Manager) (e : Event) (m' : Manager) (hP : KeyedByID m)
    (h : step m e = .ok m') : KeyedByID m' :=
  step_preserves KeyedByID (fun _ _ _ _ hm => hm) (fun _ hm => hm)
    (fun m f _ hm => afterMint_keyed m f hm) releaseToken_keyed m e m' hP h

/-- C9: uniqueness invariant. From a freshly constructed limiter (any factory), every
schedule of loop calls and goroutine steps ends in a state in which every binding of the
active map is stored under the identifier of its token, so the identifiers of the active
permits are pairwise distinct and none is tracked twice; or it ends in the runtime's
fatal error for the map, which leaves no state. The loop never panics. -/
theorem uniqueness_invariant (NewToken : tokenFactory) (conf : Config) (m0 : Manager)
    (h0 : NewMaxConcurrencyRateLimiter NewToken conf = .ok m0) (es : List Event) :
    (∃ m, loop m0 es = .ok m ∧
      (∀ k t, m.activeTokens.lookup k = some t → t.ID = k) ∧
      (∀ e ∈ m.activeTokens.entries, e.2.ID = e.1) ∧
      (m.activeTokens.entries.map (fun e => e.2.ID)).Nodup ∧
      (m.activeTokens.entries.map Prod.fst).Nodup) ∨
    loop m0 es = .error Abort.concurrentMap := by
  obtain ⟨_, rfl⟩ := newLimiter_eq h0
  have hinit : KeyedByID (NewManager NewToken conf) := by
    intro e he
    simp [NewManager, TokenMap.empty] at he
  rcases loop_reaches KeyedByID step_keyed NewToken _ rfl hinit es with ⟨m, hm, hK⟩ | herr
  · refine Or.inl ⟨m, hm, ?_, hK, ?_, m.activeTokens.nodup⟩
    · intro k t hl
      exact hK (k, t) (TokenMap.mem_of_lookup hl)
    · have hmap : m.activeTokens.entries.map (fun e => e.2.ID) =
          m.activeTokens.entries.map Prod.fst :=
        List.map_congr_left hK
      rw [hmap]
      exact m.activeTokens.nodup
  · exact Or.inr herr

theorem uniqueness_invariant_witness :
    NewMaxConcurrencyRateLimiter sampleFactory ⟨2⟩ = .ok fresh2 ∧
    ((∃ m, loop fresh2
        [.acquire, .acquire, .acquire, .release (some ⟨"t0"⟩), .grantTest, .grantInsert] =
          .ok m ∧
      (∀ k t, m.activeTokens.lookup k = some t → t.ID = k) ∧
      (∀ e ∈ m.activeTokens.entries, e.2.ID = e.1) ∧
      (m.activeTokens.entries.map (fun e => e.2.ID)).Nodup ∧
      (m.activeTokens.entries.map Prod.fst).Nodup) ∨
    loop fresh2
        [.acquire, .acquire, .acquire, .release (some ⟨"t0"⟩), .grantTest, .grantInsert] =
      .error Abort.concurrentMap) :=
  ⟨rfl, uniqueness_invariant sampleFactory ⟨2⟩ fresh2 rfl _⟩

/-! ## Pending requests and free slots -/

/-- C10, code bug: with limit 1 and a factory of distinct identifiers (the contract holds
along the schedule), after two acquire messages and the release of the first permit a
third acquire message takes the freed slot; the goroutine started by the release then
finds the limit reached; before it runs `incNeedToken` the loop releases the last permit
with pending count 0, so no grant is started; the goroutine then adds one to the pending
count. The schedule ends with pending count 1, an empty active map and no goroutine under
way: a request waits while the slot is free, and nothing is left to grant it. -/
theorem waiter_stranded :
    NewMaxConcurrencyRateLimiter sampleFactory ⟨1⟩ = .ok (NewManager sampleFactory ⟨1⟩) ∧
    freshRun (NewManager sampleFactory ⟨1⟩)
      [.acquire, .acquire, .release (some ⟨"t0"⟩), .acquire, .grantTest,
        .release (some ⟨"t1"⟩), .grantQueue] = true ∧
    ∃ m, loop (NewManager sampleFactory ⟨1⟩)
        [.acquire, .acquire, .release (some ⟨"t0"⟩), .acquire, .grantTest,
          .release (some ⟨"t1"⟩), .grantQueue] = .ok m ∧
      0 < m.needToken ∧ (m.activeTokens.len : Int) ≠ m.limit ∧
      m.needToken = 1 ∧ m.activeTokens.len = 0 ∧ m.limit = 1 ∧ grantsUnderWay m = 0 ∧
      m.outChan = [⟨"t0"⟩, ⟨"t1"⟩] :=
  ⟨rfl, by decide, _, rfl, by decide, by decide, rfl, rfl, rfl, rfl, rfl⟩

/-! ## Release with a request pending -/

/-- C7, as stated, fails: in the state a limit-1 limiter reaches after two acquire
messages (one permit active, one request pending) the release of the active permit mints
and sends nothing itself; when the next acquire message is handled before the started
goroutine reaches its limit test, that goroutine takes the limit-reached branch: it mints
nothing, sends nothing and puts the pending count back up by one. -/
theorem grant_can_fall_back :
    ∃ s r a g1 g, loop (NewManager sampleFactory ⟨1⟩) [.acquire, .acquire] = .ok s ∧
      s.makeToken = some sampleFactory ∧ (s.activeTokens.len : Int) ≤ s.limit ∧
      0 < s.needToken ∧ s.activeTokens.lookup (Token.mk "t0").ID ≠ none ∧
      r = releaseToken s (some ⟨"t0"⟩) ∧ r.minted = s.minted ∧ r.outChan = s.outChan ∧
      r.spawned = 1 ∧
      step r .acquire = .ok a ∧ step a .grantTest = .ok g1 ∧ step g1 .grantQueue = .ok g ∧
      a.spawned = 1 ∧ g1.queuing = 1 ∧ grantsUnderWay g = 0 ∧
      g.minted = a.minted ∧ g.outChan = a.outChan ∧ g.activeTokens.len = a.activeTokens.len ∧
      g.needToken = a.needToken + 1 :=
  ⟨_, _, _, _, _, rfl, rfl, by decide, by decide, by decide, rfl, rfl, rfl, rfl, rfl, rfl,
    rfl, rfl, rfl, rfl, rfl, rfl, rfl, rfl⟩

/-- C7, amended: in a state with `len(activeTokens) <= limit`, a positive pending count and
a factory installed, releasing a token whose identifier is a key of the active map
removes that key, lowers the pending count by exactly one and starts exactly one
goroutine, minting and sending nothing itself; when that goroutine runs on the state the
release left (its limit test, then its map write), it does not panic, takes the minting
branch, calls the factory once, stores the new permit and hands it to `outChan`, the
pending count staying one lower; and a new permit whose identifier differs from the
released one differs from the released permit. -/
theorem releaseToken_resumes_one (m : Manager) (f : tokenFactory) (t : Token)
    (hf : m.makeToken = some f) (hW : (m.activeTokens.len : Int) ≤ m.limit)
    (hn : 0 < m.needToken) (hin : m.activeTokens.lookup t.ID ≠ none) :
    (releaseToken m (some t)).needToken = m.needToken - 1 ∧
    (releaseToken m (some t)).activeTokens = m.activeTokens.erase t.ID ∧
    (releaseToken m (some t)).spawned = m.spawned + 1 ∧
    (releaseToken m (some t)).minted = m.minted ∧
    (releaseToken m (some t)).outChan = m.outChan ∧
    ∃ g, loop (releaseToken m (some t)) [.grantTest, .grantInsert] = .ok g ∧
      g.minted = m.minted + 1 ∧
      g.activeTokens = (m.activeTokens.erase t.ID).insert (f m.minted).ID (f m.minted) ∧
      g.activeTokens.lookup (f m.minted).ID = some (f m.minted) ∧
      g.outChan = m.outChan ++ [f m.minted] ∧
      g.needToken = m.needToken - 1 ∧
      g.spawned = m.spawned ∧ g.queuing = m.queuing ∧ g.minting = m.minting ∧
      ((f m.minted).ID ≠ t.ID → f m.minted ≠ t) := by
  have hr : releaseToken m (some t) = afterRelease m t := by
    rcases releaseToken_cases m (some t) with ⟨h, _⟩ | ⟨t', ht, hl, _⟩ | ⟨t', ht, _, _, h⟩ |
      ⟨t', ht, _, hn', _⟩
    · cases h
    · cases ht; exact absurd hl hin
    · cases ht; exact h
    · exact absurd hn hn'
  rw [hr]
  refine ⟨by simp only [afterRelease]; ring, rfl, rfl, rfl, rfl, ?_⟩
  have hlen := TokenMap.len_erase_of_mem hin
  have hlt : ((m.activeTokens.erase t.ID).len : Int) < m.limit := by omega
  have hl : isLimitExceeded (afterRelease m t) = false :=
    (isLimitExceeded_false_iff _).mpr hlt
  have hf' : (afterRelease m t).makeToken = some f := hf
  have h1 : step (afterRelease m t) .grantTest =
      .ok { afterRelease m t with spawned := m.spawned, minting := m.minting + 1 } := by
    have hs : (afterRelease m t).spawned ≠ 0 := Nat.succ_ne_zero _
    simp only [step, hs, if_false, hf', hl, Bool.false_eq_true]
    rfl
  have h2 : step { afterRelease m t with spawned := m.spawned, minting := m.minting + 1 }
      .grantInsert =
      .ok (afterMint { afterRelease m t with spawned := m.spawned, minting := m.minting } f) := by
    have hs : ({ afterRelease m t with spawned := m.spawned, minting := m.minting + 1 } :
        Manager).minting ≠ 0 := Nat.succ_ne_zero _
    simp only [step, hs, if_false]
    rw [hf']
    rfl
  refine ⟨afterMint { afterRelease m t with spawned := m.spawned, minting := m.minting } f,
    ?_, rfl, rfl, TokenMap.lookup_insert_self _ _ _, rfl,
    by simp only [afterMint, afterRelease]; ring, rfl, rfl, rfl,
    fun hne heq => hne (congrArg Token.ID heq)⟩
  rw [loop_cons_ok h1, loop_cons_ok h2]
  rfl

theorem releaseToken_resumes_one_witness :
    fullOne.makeToken = some sampleFactory ∧ (fullOne.activeTokens.len : Int) ≤ fullOne.limit ∧
    0 < fullOne.needToken ∧ fullOne.activeTokens.lookup (Token.mk "a").ID ≠ none ∧
    ((releaseToken fullOne (some ⟨"a"⟩)).needToken = fullOne.needToken - 1 ∧
    (releaseToken fullOne (some ⟨"a"⟩)).activeTokens =
      fullOne.activeTokens.erase (Token.mk "a").ID ∧
    (releaseToken fullOne (some ⟨"a"⟩)).spawned = fullOne.spawned + 1 ∧
    (releaseToken fullOne (some ⟨"a"⟩)).minted = fullOne.minted ∧
    (releaseToken fullOne (some ⟨"a"⟩)).outChan = fullOne.outChan ∧
    ∃ g, loop (releaseToken fullOne (some ⟨"a"⟩)) [.grantTest, .grantInsert] = .ok g ∧
      g.minted = fullOne.minted + 1 ∧
      g.activeTokens =
        (fullOne.activeTokens.erase (Token.mk "a").ID).insert
          (sampleFactory fullOne.minted).ID (sampleFactory fullOne.minted) ∧
      g.activeTokens.lookup (sampleFactory fullOne.minted).ID =
        some (sampleFactory fullOne.minted) ∧
      g.outChan = fullOne.outChan ++ [sampleFactory fullOne.minted] ∧
      g.needToken = fullOne.needToken - 1 ∧
      g.spawned = fullOne.spawned ∧ g.queuing = fullOne.queuing ∧
      g.minting = fullOne.minting ∧
      ((sampleFactory fullOne.minted).ID ≠ (Token.mk "a").ID →
        sampleFactory fullOne.minted ≠ Token.mk "a")) :=
  ⟨rfl, by decide, by decide, by decide,
    releaseToken_resumes_one fullOne sampleFactory ⟨"a"⟩ rfl (by decide) (by decide)
      (by decide)⟩

/-! ## Releasing the same permit twice -/

theorem TokenMap.lookup_erase_of_none {k k' : String} {s : TokenMap}
    (h : TokenMap.lookup k' s = none) : TokenMap.lookup k' (TokenMap.erase k s) = none := by
  by_cases hk : k' = k
  · rw [hk]
    exact TokenMap.lookup_erase_self k s
  · rw [TokenMap.lookup_erase_ne hk]
    exact h

theorem afterMint_released {f : tokenFactory} {n : Nat} {t : Token}
    (hfac : ∀ i, n ≤ i → (f i).ID ≠ t.ID) (m : Manager) (f' : tokenFactory)
    (hf' : m.makeToken = some f') (hP : Released f n t m) : Released f n t (afterMint m f') := by
  obtain ⟨hf, hn, hl⟩ := hP
  have hff : f' = f := by
    rw [hf] at hf'
    exact (Option.some.inj hf').symm
  subst hff
  refine ⟨hf, Nat.le_succ_of_le hn, ?_⟩
  simp only [afterMint]
  rw [TokenMap.lookup_insert_ne (fun heq => hfac m.minted hn heq.symm)]
  exact hl

theorem releaseToken_released {f : tokenFactory} {n : Nat} {t : Token} (m : Manager)
    (token : Option Token) (hP : Released f n t m) : Released f n t (releaseToken m token) := by
  obtain ⟨hf, hn, hl⟩ := hP
  rcases releaseToken_cases m token with ⟨_, h⟩ | ⟨t', _, _, h⟩ | ⟨t', _, _, _, h⟩ |
    ⟨t', _, _, _, h⟩
  · rw [h]; exact ⟨hf, hn, hl⟩
  · rw [h]; exact ⟨hf, hn, hl⟩
  · rw [h]; exact ⟨hf, hn, TokenMap.lookup_erase_of_none hl⟩
  · rw [h]; exact ⟨hf, hn, TokenMap.lookup_erase_of_none hl⟩

theorem step_released {f : tokenFactory} {n : Nat} {t : Token}
    (hfac : ∀ i, n ≤ i → (f i).ID ≠ t.ID) (m : Manager) (e : Event) (m' : Manager)
    (hP : Released f n t m) (h : step m e = .ok m') : Released f n t m' :=
  step_preserves (Released f n t) (fun _ _ _ _ hm => hm) (fun _ hm => hm)
    (afterMint_released hfac) releaseToken_released m e m' hP h

theorem releaseToken_self_released (m : Manager) (f : tokenFactory) (t : Token)
    (hf : m.makeToken = some f) : Released f m.minted t (releaseToken m (some t)) := by
  rcases releaseToken_cases m (some t) with ⟨h, _⟩ | ⟨t', ht, hl, h⟩ | ⟨t', ht, _, _, h⟩ |
    ⟨t', ht, _, _, h⟩
  · cases h
  · cases ht; rw [h]; exact ⟨hf, le_refl _, hl⟩
  · cases ht; rw [h]; exact ⟨hf, le_refl _, TokenMap.lookup_erase_self _ _⟩
  · cases ht; rw [h]; exact ⟨hf, le_refl _, TokenMap.lookup_erase_self _ _⟩

/-- C8, as stated, fails: a factory that returns the identifier `p` at every call meets
the contract on this schedule (each minted identifier is new to the active map when
minted). With limit 1, after two acquire messages the permit `p` is active and one
request is pending; `release(p)` and the goroutine it starts leave the re-granted permit
`p` active, and a second `release(p)` removes that permit too. -/
theorem second_release_frees_regranted_slot :
    ∃ s s1 s2, loop (NewManager constFactory ⟨1⟩) [.acquire, .acquire] = .ok s ∧
      freshRun (NewManager constFactory ⟨1⟩)
        [.acquire, .acquire, .release (some ⟨"p"⟩), .grantTest, .grantInsert,
          .release (some ⟨"p"⟩)] = true ∧
      loop s [.release (some ⟨"p"⟩), .grantTest, .grantInsert] = .ok s1 ∧
      s2 = releaseToken s1 (some ⟨"p"⟩) ∧
      s1.activeTokens.len = 1 ∧ s2.activeTokens.len = 0 ∧
      s1.activeTokens.lookup "p" = some ⟨"p"⟩ ∧ s2.activeTokens.lookup "p" = none ∧
      s2.activeTokens ≠ s1.activeTokens ∧ s1.outChan = [⟨"p"⟩, ⟨"p"⟩] :=
  ⟨_, _, _, rfl, by decide, rfl, rfl, rfl, rfl, rfl, rfl,
    fun h => absurd (congrArg TokenMap.len h) (by decide), rfl⟩

/-- C8, amended: for every state with a factory installed, every released pointer `p`
(nil included) and every factory that does not mint the identifier of `p` again: after
`release(p)` and any schedule of loop calls and goroutine steps, either the run was
stopped by the runtime's fatal error for the map, or it reached a state in which a
second `release(p)` frees nothing: as a call it returns normally and leaves the active
map, the pending count, the started goroutines, the factory calls and `outChan` as it
found them. -/
theorem double_release_tolerated (m : Manager) (f : tokenFactory) (p : Option Token)
    (hf : m.makeToken = some f)
    (hfac : ∀ t, p = some t → ∀ i, m.minted ≤ i → (f i).ID ≠ t.ID) (es : List Event) :
    (∃ s1, loop (releaseToken m p) es = .ok s1 ∧
      (releaseToken s1 p).activeTokens = s1.activeTokens ∧
      (releaseToken s1 p).needToken = s1.needToken ∧
      grantsUnderWay (releaseToken s1 p) = grantsUnderWay s1 ∧
      (releaseToken s1 p).spawned = s1.spawned ∧
      (releaseToken s1 p).minted = s1.minted ∧
      (releaseToken s1 p).outChan = s1.outChan) ∨
    loop (releaseToken m p) es = .error Abort.concurrentMap := by
  rcases loop_ok_or_race f es (releaseToken m p)
    ((releaseToken_makeToken m p).1.trans hf) with ⟨s1, hs1⟩ | herr
  · refine Or.inl ⟨s1, hs1, ?_⟩
    cases p with
    | none => exact ⟨rfl, rfl, rfl, rfl, rfl, rfl⟩
    | some t =>
      have hR : Released f m.minted t s1 :=
        loop_preserves (Released f m.minted t) (step_released (hfac t rfl)) es _ s1
          (releaseToken_self_released m f t hf) hs1
      rcases releaseToken_cases s1 (some t) with ⟨h, _⟩ | ⟨t', _, _, h⟩ |
        ⟨t', ht, hin, _, _⟩ | ⟨t', ht, hin, _, _⟩
      · cases h
      · rw [h]; exact ⟨rfl, rfl, rfl, rfl, rfl, rfl⟩
      · cases ht; exact absurd hR.2.2 hin
      · cases ht; exact absurd hR.2.2 hin
  · exact Or.inr herr

theorem double_release_tolerated_witness :
    fullOne.makeToken = some sampleFactory ∧
    (∀ t, some (Token.mk "a") = some t →
      ∀ i, fullOne.minted ≤ i → (sampleFactory i).ID ≠ t.ID) ∧
    ((∃ s1, loop (releaseToken fullOne (some ⟨"a"⟩)) [.grantTest, .grantInsert] = .ok s1 ∧
      (releaseToken s1 (some ⟨"a"⟩)).activeTokens = s1.activeTokens ∧
      (releaseToken s1 (some ⟨"a"⟩)).needToken = s1.needToken ∧
      grantsUnderWay (releaseToken s1 (some ⟨"a"⟩)) = grantsUnderWay s1 ∧
      (releaseToken s1 (some ⟨"a"⟩)).spawned = s1.spawned ∧
      (releaseToken s1 (some ⟨"a"⟩)).minted = s1.minted ∧
      (releaseToken s1 (some ⟨"a"⟩)).outChan = s1.outChan) ∨
    loop (releaseToken fullOne (some ⟨"a"⟩)) [.grantTest, .grantInsert] =
      .error Abort.concurrentMap) :=
  have hfac : ∀ t, some (Token.mk "a") = some t →
      ∀ i, fullOne.minted ≤ i → (sampleFactory i).ID ≠ t.ID := by
    intro t ht i _
    cases ht
    unfold sampleFactory
    split <;> decide
  ⟨rfl, hfac,
    double_release_tolerated fullOne sampleFactory (some ⟨"a"⟩) rfl hfac
      [.grantTest, .grantInsert]⟩

/-! ## The constructor -/

/-- C2: `NewMaxConcurrencyRateLimiter` returns `ErrInvalidLimit` exactly when
`conf.Limit <= 0`; for `conf.Limit > 0` it returns, without error, the manager built by
`NewManager`, whose limit is `conf.Limit`, whose active map is empty and whose pending
count is 0. -/
theorem newMaxConcurrencyRateLimiter_spec (NewToken : tokenFactory) (conf : Config) :
    (NewMaxConcurrencyRateLimiter NewToken conf = .error Err.ErrInvalidLimit ↔
        conf.Limit ≤ 0) ∧
    (0 < conf.Limit →
      ∃ m, NewMaxConcurrencyRateLimiter NewToken conf = .ok m ∧
        m = NewManager NewToken conf ∧ m.limit = conf.Limit ∧
        m.activeTokens = TokenMap.empty ∧ m.activeTokens.len = 0 ∧ m.needToken = 0) := by
  unfold NewMaxConcurrencyRateLimiter
  constructor
  · by_cases h : conf.Limit ≤ 0
    · simp [h]
    · simp [h]
  · intro h
    have h' : ¬ conf.Limit ≤ 0 := not_le.mpr h
    exact ⟨NewManager NewToken conf, by simp [h'], rfl, rfl, rfl, rfl, rfl⟩

theorem newMaxConcurrencyRateLimiter_spec_witness :
    0 < (Config.mk 2).Limit ∧
    ∃ m, NewMaxConcurrencyRateLimiter sampleFactory ⟨2⟩ = .ok m ∧
      m = NewManager sampleFactory ⟨2⟩ ∧ m.limit = (Config.mk 2).Limit ∧
      m.activeTokens = TokenMap.empty ∧ m.activeTokens.len = 0 ∧ m.needToken = 0 :=
  ⟨by decide, (newMaxConcurrencyRateLimiter_spec sampleFactory ⟨2⟩).2 (by decide)⟩

/-! ## Single transitions -/

/-- C3: with a factory installed and `len(activeTokens) < limit`, `tryGenerateToken`
returns normally, calls the factory once, stores the minted token under its own
identifier, hands exactly that token to `outChan` and leaves the pending count (and
the limit, the error channel and the count of started goroutines) unchanged. -/
theorem tryGenerateToken_under_limit (m : Manager) (f : tokenFactory)
    (hf : m.makeToken = some f) (hlt : (m.activeTokens.len : Int) < m.limit) :
    ∃ m', tryGenerateToken m = .ok m' ∧
      m'.minted = m.minted + 1 ∧
      m'.activeTokens = m.activeTokens.insert (f m.minted).ID (f m.minted) ∧
      m'.activeTokens.lookup (f m.minted).ID = some (f m.minted) ∧
      m'.outChan = m.outChan ++ [f m.minted] ∧
      m'.needToken = m.needToken ∧
      m'.limit = m.limit ∧ m'.errorChan = m.errorChan ∧ m'.spawned = m.spawned := by
  have hnot : isLimitExceeded m = false := by
    unfold isLimitExceeded
    simp [not_le.mpr hlt]
  refine ⟨{ m with
      minted := m.minted + 1
      activeTokens := m.activeTokens.insert (f m.minted).ID (f m.minted)
      outChan := m.outChan ++ [f m.minted] }, ?_, rfl, rfl,
    TokenMap.lookup_insert_self _ _ _, rfl, rfl, rfl, rfl, rfl⟩
  simp [tryGenerateToken, hf, hnot]

theorem tryGenerateToken_under_limit_witness :
    fresh2.makeToken = some sampleFactory ∧ (fresh2.activeTokens.len : Int) < fresh2.limit ∧
    ∃ m', tryGenerateToken fresh2 = .ok m' ∧
      m'.minted = fresh2.minted + 1 ∧
      m'.activeTokens =
        fresh2.activeTokens.insert (sampleFactory fresh2.minted).ID
          (sampleFactory fresh2.minted) ∧
      m'.activeTokens.lookup (sampleFactory fresh2.minted).ID =
        some (sampleFactory fresh2.minted) ∧
      m'.outChan = fresh2.outChan ++ [sampleFactory fresh2.minted] ∧
      m'.needToken = fresh2.needToken ∧
      m'.limit = fresh2.limit ∧ m'.errorChan = fresh2.errorChan ∧
      m'.spawned = fresh2.spawned :=
  ⟨rfl, by decide, tryGenerateToken_under_limit fresh2 sampleFactory rfl (by decide)⟩

/-- C4, as stated, fails: `needToken` is an `int64`. In a state at the limit whose
pending count is `2 ^ 63 - 1`, `tryGenerateToken` leaves the pending count at `-2 ^ 63`,
not one higher. -/
theorem pending_count_wraps :
    fullMax.makeToken = some sampleFactory ∧
    (fullMax.activeTokens.len : Int) ≥ fullMax.limit ∧ fullMax.needToken = 2 ^ 63 - 1 ∧
    ∃ m', tryGenerateToken fullMax = .ok m' ∧
      m'.needToken = -(2 ^ 63) ∧ m'.needToken ≠ fullMax.needToken + 1 :=
  ⟨rfl, by decide, rfl, _, rfl, by decide, by decide⟩

/-- C4, amended: with a factory installed, `len(activeTokens) >= limit` and a pending
count below the largest `int64`, `tryGenerateToken` returns normally, adds exactly one to
the pending count, leaves the active map unchanged, does not call the factory and hands
nothing to `outChan`. -/
theorem tryGenerateToken_at_limit (m : Manager) (f : tokenFactory)
    (hf : m.makeToken = some f) (hge : (m.activeTokens.len : Int) ≥ m.limit)
    (hmax : m.needToken < maxInt64) :
    ∃ m', tryGenerateToken m = .ok m' ∧
      m'.needToken = m.needToken + 1 ∧
      m'.activeTokens = m.activeTokens ∧
      m'.minted = m.minted ∧
      m'.outChan = m.outChan ∧
      m'.limit = m.limit ∧ m'.errorChan = m.errorChan ∧ m'.spawned = m.spawned := by
  have hyes : isLimitExceeded m = true := by
    unfold isLimitExceeded
    simp [hge]
  refine ⟨incNeedToken m, ?_, incNeedToken_needToken hmax, rfl, rfl, rfl, rfl, rfl, rfl⟩
  simp [tryGenerateToken, hf, hyes]

theorem tryGenerateToken_at_limit_witness :
    fullOne.makeToken = some sampleFactory ∧ (fullOne.activeTokens.len : Int) ≥ fullOne.limit ∧
    fullOne.needToken < maxInt64 ∧
    ∃ m', tryGenerateToken fullOne = .ok m' ∧
      m'.needToken = fullOne.needToken + 1 ∧
      m'.activeTokens = fullOne.activeTokens ∧
      m'.minted = fullOne.minted ∧
      m'.outChan = fullOne.outChan ∧
      m'.limit = fullOne.limit ∧ m'.errorChan = fullOne.errorChan ∧
      m'.spawned = fullOne.spawned :=
  ⟨rfl, by decide, by decide,
    tryGenerateToken_at_limit fullOne sampleFactory rfl (by decide) (by decide)⟩

/-- C5: when the released pointer is nil, or its identifier is not a key of the active
map, `releaseToken` (a total function: it cannot panic) leaves the active map, the
pending count and the limit unchanged, calls no factory, hands nothing to `outChan` and
starts no grant, whatever the pending count is; only a diagnostic is logged. -/
theorem releaseToken_invalid (m : Manager) (token : Option Token)
    (h : token = none ∨ ∃ t, token = some t ∧ m.activeTokens.lookup t.ID = none) :
    (releaseToken m token).activeTokens = m.activeTokens ∧
    (releaseToken m token).needToken = m.needToken ∧
    (releaseToken m token).limit = m.limit ∧
    (releaseToken m token).minted = m.minted ∧
    (releaseToken m token).outChan = m.outChan ∧
    (releaseToken m token).errorChan = m.errorChan ∧
    (releaseToken m token).spawned = m.spawned ∧
    (releaseToken m token).log.length = m.log.length + 1 := by
  rcases h with h | ⟨t, ht, hl⟩
  · subst h
    simp [releaseToken]
  · subst ht
    simp [releaseToken, hl]

theorem releaseToken_invalid_witness :
    ((some (Token.mk "zz") = none ∨
        ∃ t, some (Token.mk "zz") = some t ∧ fullOne.activeTokens.lookup t.ID = none)) ∧
    ((releaseToken fullOne (some ⟨"zz"⟩)).activeTokens = fullOne.activeTokens ∧
    (releaseToken fullOne (some ⟨"zz"⟩)).needToken = fullOne.needToken ∧
    (releaseToken fullOne (some ⟨"zz"⟩)).limit = fullOne.limit ∧
    (releaseToken fullOne (some ⟨"zz"⟩)).minted = fullOne.minted ∧
    (releaseToken fullOne (some ⟨"zz"⟩)).outChan = fullOne.outChan ∧
    (releaseToken fullOne (some ⟨"zz"⟩)).errorChan = fullOne.errorChan ∧
    (releaseToken fullOne (some ⟨"zz"⟩)).spawned = fullOne.spawned ∧
    (releaseToken fullOne (some ⟨"zz"⟩)).log.length = fullOne.log.length + 1) :=
  ⟨Or.inr ⟨⟨"zz"⟩, rfl, by decide⟩,
    releaseToken_invalid fullOne (some ⟨"zz"⟩) (Or.inr ⟨⟨"zz"⟩, rfl, by decide⟩)⟩

/-- C6: with pending count 0, releasing a token whose identifier is a key of the active
map removes exactly that key: the new map is the old one with `delete(_, token.ID)`
applied, its size is one less, the key is gone, every other key keeps its entry, the
pending count stays 0, and nothing is minted, sent or started. -/
theorem releaseToken_valid_no_waiter (m : Manager) (t : Token)
    (h0 : m.needToken = 0) (hin : m.activeTokens.lookup t.ID ≠ none) :
    (releaseToken m (some t)).activeTokens = m.activeTokens.erase t.ID ∧
    (releaseToken m (some t)).activeTokens.len + 1 = m.activeTokens.len ∧
    (releaseToken m (some t)).activeTokens.lookup t.ID = none ∧
    (∀ k, k ≠ t.ID →
      (releaseToken m (some t)).activeTokens.lookup k = m.activeTokens.lookup k) ∧
    (releaseToken m (some t)).needToken = 0 ∧
    (releaseToken m (some t)).minted = m.minted ∧
    (releaseToken m (some t)).outChan = m.outChan ∧
    (releaseToken m (some t)).spawned = m.spawned ∧
    (releaseToken m (some t)).limit = m.limit := by
  obtain ⟨v, hv⟩ := Option.ne_none_iff_exists'.mp hin
  have hr : releaseToken m (some t) = { m with activeTokens := m.activeTokens.erase t.ID } := by
    simp [releaseToken, hv, awaitingToken, h0]
  rw [hr]
  refine ⟨rfl, TokenMap.len_erase_of_mem hin, TokenMap.lookup_erase_self _ _, ?_, h0,
    rfl, rfl, rfl, rfl⟩
  intro k hk
  exact TokenMap.lookup_erase_ne hk _

theorem releaseToken_valid_no_waiter_witness :
    twoActive.needToken = 0 ∧ twoActive.activeTokens.lookup (Token.mk "a").ID ≠ none ∧
    ((releaseToken twoActive (some ⟨"a"⟩)).activeTokens =
        twoActive.activeTokens.erase (Token.mk "a").ID ∧
    (releaseToken twoActive (some ⟨"a"⟩)).activeTokens.len + 1 = twoActive.activeTokens.len ∧
    (releaseToken twoActive (some ⟨"a"⟩)).activeTokens.lookup (Token.mk "a").ID = none ∧
    (∀ k, k ≠ (Token.mk "a").ID →
      (releaseToken twoActive (some ⟨"a"⟩)).activeTokens.lookup k =
        twoActive.activeTokens.lookup k) ∧
    (releaseToken twoActive (some ⟨"a"⟩)).needToken = 0 ∧
    (releaseToken twoActive (some ⟨"a"⟩)).minted = twoActive.minted ∧
    (releaseToken twoActive (some ⟨"a"⟩)).outChan = twoActive.outChan ∧
    (releaseToken twoActive (some ⟨"a"⟩)).spawned = twoActive.spawned ∧
    (releaseToken twoActive (some ⟨"a"⟩)).limit = twoActive.limit) :=
  ⟨rfl, by decide, releaseToken_valid_no_waiter twoActive ⟨"a"⟩ rfl (by decide)⟩


/-! ## Missing factory, fixed limit -/

/-- C13: with a nil factory field `tryGenerateToken` panics with
`ErrTokenFactoryNotDefined`, whether or not the limit is reached; the panic is the
first statement, so no successor state exists: nothing is written to the active map, the
pending count or a channel, and the loop handling the message stops with that panic. -/
theorem tryGenerateToken_missing_factory (m : Manager) (h : m.makeToken = none) :
    tryGenerateToken m = .error Err.ErrTokenFactoryNotDefined ∧
    (isLimitExceeded m = true → tryGenerateToken m = .error Err.ErrTokenFactoryNotDefined) ∧
    (isLimitExceeded m = false → tryGenerateToken m = .error Err.ErrTokenFactoryNotDefined) ∧
    (∀ es, loop m (.acquire :: es) = .error (Abort.panic Err.ErrTokenFactoryNotDefined)) := by
  have h1 : tryGenerateToken m = .error Err.ErrTokenFactoryNotDefined := by
    simp [tryGenerateToken, h]
  refine ⟨h1, fun _ => h1, fun _ => h1, fun es => ?_⟩
  simp [loop, step, called, h1]

theorem tryGenerateToken_missing_factory_witness :
    noFactory.makeToken = none ∧
    (tryGenerateToken noFactory = .error Err.ErrTokenFactoryNotDefined ∧
    (isLimitExceeded noFactory = true →
      tryGenerateToken noFactory = .error Err.ErrTokenFactoryNotDefined) ∧
    (isLimitExceeded noFactory = false →
      tryGenerateToken noFactory = .error Err.ErrTokenFactoryNotDefined) ∧
    (∀ es, loop noFactory (.acquire :: es) =
      .error (Abort.panic Err.ErrTokenFactoryNotDefined))) :=
  ⟨rfl, tryGenerateToken_missing_factory noFactory rfl⟩

/-- C14: `tryGenerateToken` and `releaseToken` leave the limit and the factory field
unchanged, and so does every step of a started goroutine; hence every schedule from a
constructed limiter either ends in a state whose limit is the `conf.Limit` given to the
constructor and whose factory is the one `NewManager` installed, or ends in the
runtime's fatal error for the map, which leaves no state. -/
theorem limit_fixed (NewToken : tokenFactory) (conf : Config) :
    (∀ m m', tryGenerateToken m = .ok m' → m'.limit = m.limit ∧ m'.makeToken = m.makeToken) ∧
    (∀ m token, (releaseToken m token).limit = m.limit ∧
      (releaseToken m token).makeToken = m.makeToken) ∧
    (∀ m e m', step m e = .ok m' → m'.limit = m.limit ∧ m'.makeToken = m.makeToken) ∧
    (∀ m0 es, NewMaxConcurrencyRateLimiter NewToken conf = .ok m0 →
      (∃ m, loop m0 es = .ok m ∧ m.limit = conf.Limit ∧ m.makeToken = some NewToken) ∨
        loop m0 es = .error Abort.concurrentMap) := by
  refine ⟨fun m m' h => (tryGenerateToken_makeToken h).symm,
    fun m token => (releaseToken_makeToken m token).symm,
    fun m e m' h => (step_makeToken h).symm, fun m0 es h0 => ?_⟩
  obtain ⟨_, rfl⟩ := newLimiter_eq h0
  exact loop_reaches (fun s => s.limit = conf.Limit ∧ s.makeToken = some NewToken)
    (fun s e s' hs hstep =>
      ⟨(step_makeToken hstep).2.trans hs.1, (step_makeToken hstep).1.trans hs.2⟩)
    NewToken _ rfl ⟨rfl, rfl⟩ es

theorem limit_fixed_witness :
    NewMaxConcurrencyRateLimiter sampleFactory ⟨2⟩ = .ok fresh2 ∧
    ((∃ m, loop fresh2
        [.acquire, .acquire, .acquire, .release (some ⟨"t1"⟩), .grantTest, .grantInsert] =
          .ok m ∧
      m.limit = (Config.mk 2).Limit ∧ m.makeToken = some sampleFactory) ∨
    loop fresh2
        [.acquire, .acquire, .acquire, .release (some ⟨"t1"⟩), .grantTest, .grantInsert] =
      .error Abort.concurrentMap) :=
  ⟨rfl, (limit_fixed sampleFactory ⟨2⟩).2.2.2 fresh2 _ rfl⟩

/-- C18: `NewManager` installs a factory and no step changes the field, so for every
limiter returned by `NewManager` or by `NewMaxConcurrencyRateLimiter` and every schedule
of loop calls and goroutine steps, no call of `tryGenerateToken` takes the
`ErrTokenFactoryNotDefined` branch: the schedule never ends in a panic, and whenever it
ends in a state the factory is still installed and a further call returns normally. -/
theorem missing_factory_unreachable (NewToken : tokenFactory) (conf : Config)
    (es : List Event) :
    (NewManager NewToken conf).makeToken = some NewToken ∧
    (∀ x, loop (NewManager NewToken conf) es ≠ .error (Abort.panic x)) ∧
    ((∃ m, loop (NewManager NewToken conf) es = .ok m ∧ m.makeToken = some NewToken ∧
        ∃ m', tryGenerateToken m = .ok m') ∨
      loop (NewManager NewToken conf) es = .error Abort.concurrentMap) ∧
    (∀ m0, NewMaxConcurrencyRateLimiter NewToken conf = .ok m0 →
      (∀ x, loop m0 es ≠ .error (Abort.panic x)) ∧
      ((∃ m, loop m0 es = .ok m ∧ m.makeToken = some NewToken ∧
          ∃ m', tryGenerateToken m = .ok m') ∨
        loop m0 es = .error Abort.concurrentMap)) := by
  have hreach := loop_reaches (fun s => s.makeToken = some NewToken)
    (fun s e s' hs hstep => (step_makeToken hstep).1.trans hs) NewToken
    (NewManager NewToken conf) rfl rfl es
  have hmain : (∃ m, loop (NewManager NewToken conf) es = .ok m ∧
      m.makeToken = some NewToken ∧ ∃ m', tryGenerateToken m = .ok m') ∨
      loop (NewManager NewToken conf) es = .error Abort.concurrentMap := by
    rcases hreach with ⟨m, hm, hf⟩ | herr
    · refine Or.inl ⟨m, hm, hf, ?_⟩
      rcases tryGenerateToken_cases m with ⟨h0, _⟩ | ⟨_, _, _, h1⟩ | ⟨_, _, _, h1⟩
      · rw [hf] at h0; cases h0
      · exact ⟨_, h1⟩
      · exact ⟨_, h1⟩
    · exact Or.inr herr
  have hnopanic : ∀ x, loop (NewManager NewToken conf) es ≠ .error (Abort.panic x) := by
    intro x hx
    rcases hreach with ⟨m, hm, _⟩ | herr
    · rw [hm] at hx; cases hx
    · rw [herr] at hx; cases hx
  refine ⟨rfl, hnopanic, hmain, fun m0 h0 => ?_⟩
  obtain ⟨_, rfl⟩ := newLimiter_eq h0
  exact ⟨hnopanic, hmain⟩

theorem missing_factory_unreachable_witness :
    NewMaxConcurrencyRateLimiter sampleFactory ⟨2⟩ = .ok fresh2 ∧
    ((∀ x, loop fresh2 [.acquire, .release none, .acquire, .acquire, .grantTest] ≠
      .error (Abort.panic x)) ∧
    ((∃ m, loop fresh2 [.acquire, .release none, .acquire, .acquire, .grantTest] = .ok m ∧
        m.makeToken = some sampleFactory ∧ ∃ m', tryGenerateToken m = .ok m') ∨
      loop fresh2 [.acquire, .release none, .acquire, .acquire, .grantTest] =
        .error Abort.concurrentMap)) :=
  ⟨rfl, (missing_factory_unreachable sampleFactory ⟨2⟩
    [.acquire, .release none, .acquire, .acquire, .grantTest]).2.2.2 fresh2 rfl⟩

/-! ## Errors -/

theorem releaseToken_errorChan (m : Manager) (token : Option Token) :
    (releaseToken m token).errorChan = m.errorChan := by
  rcases releaseToken_cases m token with ⟨_, h⟩ | ⟨t, _, _, h⟩ | ⟨t, _, _, _, h⟩ |
    ⟨t, _, _, _, h⟩
  · rw [h]
  · rw [h]
  · rw [h]; rfl
  · rw [h]

theorem tryGenerateToken_errorChan {m m' : Manager} (h : tryGenerateToken m = .ok m') :
    m'.errorChan = m.errorChan := by
  rcases tryGenerateToken_cases m with ⟨_, h1⟩ | ⟨f, _, _, h1⟩ | ⟨f, _, _, h1⟩
  · rw [h1] at h; cases h
  · rw [h1] at h; cases h; rfl
  · rw [h1] at h; cases h; rfl

theorem step_noError (m : Manager) (e : Event) (m' : Manager) (hP : NoError m)
    (h : step m e = .ok m') : NoError m' :=
  step_preserves NoError (fun _ _ _ _ hm => hm) (fun _ hm => hm) (fun _ _ _ hm => hm)
    (fun m t hm => (releaseToken_errorChan m t).trans hm) m e m' hP h

/-- C19: `tryGenerateToken` and `releaseToken` hand nothing to `errorChan`, and neither
does a step of a started goroutine; hence in every state a schedule reaches from a
constructed limiter `errorChan` never held a value, and every result `Acquire` can
return is `(token, nil)` with a token that was handed to `outChan`, never `(nil, err)`.
A schedule that reaches no state ended in the runtime's fatal error for the map. -/
theorem no_error_reported (NewToken : tokenFactory) (conf : Config) :
    (∀ m m', tryGenerateToken m = .ok m' → m'.errorChan = m.errorChan) ∧
    (∀ m token, (releaseToken m token).errorChan = m.errorChan) ∧
    (∀ m e m', step m e = .ok m' → m'.errorChan = m.errorChan) ∧
    (∀ m0 es, NewMaxConcurrencyRateLimiter NewToken conf = .ok m0 →
      (∃ m, loop m0 es = .ok m ∧ m.errorChan = [] ∧
        (∀ r ∈ Acquire m, ∃ t, r = (some t, none) ∧ t ∈ m.outChan) ∧
        (∀ x, (none, some x) ∉ Acquire m)) ∨
      loop m0 es = .error Abort.concurrentMap) := by
  refine ⟨fun m m' h => tryGenerateToken_errorChan h, releaseToken_errorChan,
    fun m e m' h => ?_, fun m0 es h0 => ?_⟩
  · exact step_preserves (fun s => s.errorChan = m.errorChan) (fun _ _ _ _ hm => hm)
      (fun _ hm => hm) (fun _ _ _ hm => hm)
      (fun s t hs => (releaseToken_errorChan s t).trans hs) m e m' rfl h
  · obtain ⟨_, rfl⟩ := newLimiter_eq h0
    have hinit : NoError (NewManager NewToken conf) := rfl
    rcases loop_reaches NoError step_noError NewToken _ rfl hinit es with ⟨m, hm, hE⟩ | herr
    · have hE' : m.errorChan = [] := hE
      refine Or.inl ⟨m, hm, hE', fun r hr => ?_, fun x hx => ?_⟩
      · simp only [Acquire, hE', List.map_nil, List.append_nil, List.mem_map] at hr
        obtain ⟨t, ht, rfl⟩ := hr
        exact ⟨t, rfl, ht⟩
      · simp [Acquire, hE'] at hx
    · exact Or.inr herr

theorem no_error_reported_witness :
    NewMaxConcurrencyRateLimiter sampleFactory ⟨2⟩ = .ok fresh2 ∧
    ((∃ m, loop fresh2
        [.acquire, .acquire, .acquire, .release (some ⟨"t0"⟩), .grantTest, .grantInsert] =
          .ok m ∧
      m.errorChan = [] ∧
      (∀ r ∈ Acquire m, ∃ t, r = (some t, none) ∧ t ∈ m.outChan) ∧
      (∀ x, (none, some x) ∉ Acquire m)) ∨
    loop fresh2
        [.acquire, .acquire, .acquire, .release (some ⟨"t0"⟩), .grantTest, .grantInsert] =
      .error Abort.concurrentMap) :=
  ⟨rfl, (no_error_reported sampleFactory ⟨2⟩).2.2.2 fresh2 _ rfl⟩

/-! ## Pending count and accounting -/

theorem acquireCount_cons_acquire {e : Event} (he : e = .acquire ∨ e = .acquireRace)
    (es : List Event) : acquireCount (e :: es) = acquireCount es + 1 := by
  rcases he with rfl | rfl <;> rfl

theorem acquireCount_cons_other {e : Event} (he : e ≠ .acquire) (he' : e ≠ .acquireRace)
    (es : List Event) : acquireCount (e :: es) = acquireCount es := by
  cases e with
  | acquire => exact absurd rfl he
  | acquireRace => exact absurd rfl he'
  | release t => rfl
  | grantTest => rfl
  | grantQueue => rfl
  | grantInsert => rfl
  | releaseRace t => rfl
  | grantRace => rfl

theorem step_accounted_acquire {n : Nat} {m m' : Manager} {e : Event}
    (he : e = .acquire ∨ e = .acquireRace) (hA : Accounted n m)
    (hb : ((n + 1 : Nat) : Int) ≤ maxInt64) (h : step m e = .ok m') :
    Accounted (n + 1) m' := by
  obtain ⟨hn, hsum, hout⟩ := hA
  have ht := step_acquire_ok he h
  rcases tryGenerateToken_cases m with ⟨_, h1⟩ | ⟨f, _, _, h1⟩ | ⟨f, _, _, h1⟩
  · rw [h1] at ht; cases ht
  · rw [h1] at ht; cases ht
    have hlt : m.needToken < maxInt64 := by
      push_cast at hb
      omega
    have hinc := incNeedToken_needToken hlt
    refine ⟨by rw [hinc]; omega, ?_, hout⟩
    show ((n + 1 : Nat) : Int) =
      (m.minted : Int) + (incNeedToken m).needToken + (grantsUnderWay m : Int)
    rw [hinc]
    push_cast
    omega
  · rw [h1] at ht; cases ht
    refine ⟨hn, ?_, ?_⟩
    · show ((n + 1 : Nat) : Int) =
        ((m.minted + 1 : Nat) : Int) + m.needToken + (grantsUnderWay m : Int)
      push_cast
      omega
    · show (m.outChan ++ [f m.minted]).length = m.minted + 1
      simp [hout]

theorem step_accounted_other {n : Nat} {m m' : Manager} {e : Event}
    (he : e ≠ .acquire) (he' : e ≠ .acquireRace) (hA : Accounted n m)
    (hb : (n : Int) ≤ maxInt64) (h : step m e = .ok m') : Accounted n m' := by
  obtain ⟨hn, hsum, hout⟩ := hA
  unfold grantsUnderWay at hsum
  rcases step_other_ok he he' h with rfl | ⟨t, rfl⟩ | ⟨hs, _, rfl⟩ | ⟨hs, _, rfl⟩ |
    ⟨hq, rfl⟩ | ⟨hg, f, _, rfl⟩
  · exact ⟨hn, hsum, hout⟩
  · rcases releaseToken_cases m t with ⟨_, hr⟩ | ⟨t', _, _, hr⟩ | ⟨t', _, _, hpos, hr⟩ |
      ⟨t', _, _, _, hr⟩
    · rw [hr]; exact ⟨hn, hsum, hout⟩
    · rw [hr]; exact ⟨hn, hsum, hout⟩
    · rw [hr]
      refine ⟨?_, ?_, hout⟩
      · show 0 ≤ m.needToken + -1
        omega
      · show (n : Int) = (m.minted : Int) + (m.needToken + -1) +
          ((m.spawned + 1 + m.queuing + m.minting : Nat) : Int)
        push_cast
        omega
    · rw [hr]; exact ⟨hn, hsum, hout⟩
  · refine ⟨hn, ?_, hout⟩
    show (n : Int) = (m.minted : Int) + m.needToken +
      ((m.spawned - 1 + (m.queuing + 1) + m.minting : Nat) : Int)
    omega
  · refine ⟨hn, ?_, hout⟩
    show (n : Int) = (m.minted : Int) + m.needToken +
      ((m.spawned - 1 + m.queuing + (m.minting + 1) : Nat) : Int)
    omega
  · have hlt : ({ m with queuing := m.queuing - 1 } : Manager).needToken < maxInt64 := by
      show m.needToken < maxInt64
      omega
    have hinc := incNeedToken_needToken hlt
    have hinc' : (incNeedToken { m with queuing := m.queuing - 1 }).needToken =
        m.needToken + 1 := hinc
    refine ⟨by rw [hinc']; omega, ?_, hout⟩
    show (n : Int) = (m.minted : Int) +
      (incNeedToken { m with queuing := m.queuing - 1 }).needToken +
      ((m.spawned + (m.queuing - 1) + m.minting : Nat) : Int)
    rw [hinc']
    omega
  · refine ⟨hn, ?_, ?_⟩
    · show (n : Int) = ((m.minted + 1 : Nat) : Int) + m.needToken +
        ((m.spawned + m.queuing + (m.minting - 1) : Nat) : Int)
      omega
    · show (m.outChan ++ [f m.minted]).length = m.minted + 1
      simp [hout]

theorem loop_accounted :
    ∀ (es : List Event) (n : Nat) (m m' : Manager), Accounted n m →
      ((n + acquireCount es : Nat) : Int) ≤ maxInt64 → loop m es = .ok m' →
      Accounted (n + acquireCount es) m'
  | [], n, m, m', hA, _, h => by
    simp only [loop, Except.ok.injEq] at h
    subst h
    simpa [acquireCount] using hA
  | e :: es, n, m, m', hA, hb, h => by
    cases h1 : step m e with
    | error x => simp [loop, h1] at h
    | ok m1 =>
      rw [loop_cons_ok h1] at h
      by_cases he : e = .acquire ∨ e = .acquireRace
      · rw [acquireCount_cons_acquire he] at hb ⊢
        have hb1 : ((n + 1 : Nat) : Int) ≤ maxInt64 := by
          push_cast at hb ⊢
          omega
        have hA1 := step_accounted_acquire he hA hb1 h1
        have hb2 : ((n + 1 + acquireCount es : Nat) : Int) ≤ maxInt64 := by
          push_cast at hb ⊢
          omega
        have := loop_accounted es (n + 1) m1 m' hA1 hb2 h
        rw [show n + (acquireCount es + 1) = n + 1 + acquireCount es by omega]
        exact this
      · rw [not_or] at he
        rw [acquireCount_cons_other he.1 he.2] at hb ⊢
        have hb1 : (n : Int) ≤ maxInt64 := by
          push_cast at hb
          omega
        exact loop_accounted es n m1 m' (step_accounted_other he.1 he.2 hA hb1 h1) hb h

theorem accounted_init (NewToken : tokenFactory) (conf : Config) :
    Accounted 0 (NewManager NewToken conf) :=
  ⟨le_refl (0 : Int), rfl, rfl⟩

/-- C15: from a freshly constructed limiter (any factory), every schedule of loop calls
and goroutine steps with at most `2 ^ 63 - 1` acquire messages (each pending unit is a
blocked caller, and the `int64` counter wraps beyond that) either ends in a state whose
pending count `needToken` is at least 0, or ends in the runtime's fatal error for the
map, which leaves no state: the count starts at 0 and the only decrement is in a release
that found it positive. -/
theorem pending_nonneg (NewToken : tokenFactory) (conf : Config) (m0 : Manager)
    (h0 : NewMaxConcurrencyRateLimiter NewToken conf = .ok m0) (es : List Event)
    (hb : (acquireCount es : Int) ≤ maxInt64) :
    (∃ m, loop m0 es = .ok m ∧ 0 ≤ m.needToken) ∨
      loop m0 es = .error Abort.concurrentMap := by
  obtain ⟨_, rfl⟩ := newLimiter_eq h0
  rcases loop_ok_or_race NewToken es (NewManager NewToken conf) rfl with ⟨m, hm⟩ | herr
  · have hA := loop_accounted es 0 _ m (accounted_init NewToken conf)
      (by rw [Nat.zero_add]; exact hb) hm
    exact Or.inl ⟨m, hm, hA.1⟩
  · exact Or.inr herr

theorem pending_nonneg_witness :
    NewMaxConcurrencyRateLimiter sampleFactory ⟨1⟩ = .ok (NewManager sampleFactory ⟨1⟩) ∧
    (acquireCount [.acquire, .acquire, .release (some ⟨"t0"⟩), .release (some ⟨"t0"⟩),
      .grantTest, .grantInsert] : Int) ≤ maxInt64 ∧
    ((∃ m, loop (NewManager sampleFactory ⟨1⟩)
        [.acquire, .acquire, .release (some ⟨"t0"⟩), .release (some ⟨"t0"⟩),
          .grantTest, .grantInsert] = .ok m ∧ 0 ≤ m.needToken) ∨
      loop (NewManager sampleFactory ⟨1⟩)
        [.acquire, .acquire, .release (some ⟨"t0"⟩), .release (some ⟨"t0"⟩),
          .grantTest, .grantInsert] = .error Abort.concurrentMap) :=
  ⟨rfl, by decide, pending_nonneg sampleFactory ⟨1⟩ _ rfl _ (by decide)⟩

/-- C17, as stated, fails: with limit 1, after two acquire messages and the release of
the first permit, two acquire messages were handled, one permit was issued and the
pending count is 0; the second request is carried by the goroutine the release
started. -/
theorem acquire_carried_by_started_grant :
    NewMaxConcurrencyRateLimiter sampleFactory ⟨1⟩ = .ok (NewManager sampleFactory ⟨1⟩) ∧
    ∃ m, loop (NewManager sampleFactory ⟨1⟩)
        [.acquire, .acquire, .release (some ⟨"t0"⟩)] = .ok m ∧
      acquireCount [.acquire, .acquire, .release (some ⟨"t0"⟩)] = 2 ∧
      m.outChan.length = 1 ∧ m.minted = 1 ∧ m.needToken = 0 ∧ m.spawned = 1 ∧
      (acquireCount [.acquire, .acquire, .release (some ⟨"t0"⟩)] : Int) ≠
        (m.outChan.length : Int) + m.needToken :=
  ⟨rfl, _, rfl, rfl, rfl, rfl, rfl, rfl, by decide⟩

/-- C17, amended: for every schedule of loop calls and goroutine steps from a freshly
constructed limiter (any factory) with at most `2 ^ 63 - 1` acquire messages, in the
state reached the number of acquire messages handled equals the number of permits issued
plus the pending count plus the number of goroutines started by `releaseToken` that have
not finished; every permit issued is one factory call and one token handed to `outChan`.
A schedule that reaches no state ended in the runtime's fatal error for the map. -/
theorem acquires_accounted (NewToken : tokenFactory) (conf : Config) (m0 : Manager)
    (h0 : NewMaxConcurrencyRateLimiter NewToken conf = .ok m0) (es : List Event)
    (hb : (acquireCount es : Int) ≤ maxInt64) :
    (∃ m, loop m0 es = .ok m ∧
      (acquireCount es : Int) =
        (m.outChan.length : Int) + m.needToken + (grantsUnderWay m : Int) ∧
      m.outChan.length = m.minted ∧
      (grantsUnderWay m = 0 →
        (acquireCount es : Int) = (m.outChan.length : Int) + m.needToken)) ∨
    loop m0 es = .error Abort.concurrentMap := by
  obtain ⟨_, rfl⟩ := newLimiter_eq h0
  rcases loop_ok_or_race NewToken es (NewManager NewToken conf) rfl with ⟨m, hm⟩ | herr
  · have hA := loop_accounted es 0 _ m (accounted_init NewToken conf)
      (by rw [Nat.zero_add]; exact hb) hm
    rw [Nat.zero_add] at hA
    obtain ⟨_, hsum, hout⟩ := hA
    refine Or.inl ⟨m, hm, by rw [hout]; exact hsum, hout, fun hs => ?_⟩
    rw [hout, hsum, hs]
    simp
  · exact Or.inr herr

theorem acquires_accounted_witness :
    NewMaxConcurrencyRateLimiter sampleFactory ⟨1⟩ = .ok (NewManager sampleFactory ⟨1⟩) ∧
    (acquireCount [.acquire, .acquire, .release (some ⟨"t0"⟩), .grantTest, .grantInsert] :
      Int) ≤ maxInt64 ∧
    ((∃ m, loop (NewManager sampleFactory ⟨1⟩)
        [.acquire, .acquire, .release (some ⟨"t0"⟩), .grantTest, .grantInsert] = .ok m ∧
      (acquireCount [.acquire, .acquire, .release (some ⟨"t0"⟩), .grantTest, .grantInsert] :
        Int) = (m.outChan.length : Int) + m.needToken + (grantsUnderWay m : Int) ∧
      m.outChan.length = m.minted ∧
      (grantsUnderWay m = 0 →
        (acquireCount [.acquire, .acquire, .release (some ⟨"t0"⟩), .grantTest,
          .grantInsert] : Int) = (m.outChan.length : Int) + m.needToken)) ∨
    loop (NewManager sampleFactory ⟨1⟩)
        [.acquire, .acquire, .release (some ⟨"t0"⟩), .grantTest, .grantInsert] =
      .error Abort.concurrentMap) :=
  ⟨rfl, by decide, acquires_accounted sampleFactory ⟨1⟩ _ rfl _ (by decide)⟩

/-! ## Filling a limiter -/

theorem step_acquire_of_ok {m m' : Manager} (h : tryGenerateToken m = .ok m') :
    step m .acquire = .ok m' := by
  simp [step, called, h]

theorem TokenMap.lookup_of_mem {k : String} {v : Token} {s : TokenMap}
    (h : (k, v) ∈ s.entries) : TokenMap.lookup k s = some v := by
  cases hl : TokenMap.lookup k s with
  | none =>
    rw [TokenMap.lookup_eq_none_iff] at hl
    exact absurd rfl (hl (k, v) h)
  | some v' =>
    have h' := TokenMap.mem_of_lookup hl
    have := List.inj_on_of_nodup_map s.nodup h' h rfl
    rw [Prod.mk.injEq] at this
    rw [this.2]

theorem Filled.fresh {f : tokenFactory} {L k : Nat} {m : Manager} (hF : Filled f L k m)
    (hk : k < L) (hinj : ∀ i j, i < L → j < L → (f i).ID = (f j).ID → i = j) :
    m.activeTokens.lookup (f k).ID = none := by
  obtain ⟨_, _, _, _, _, _, hent⟩ := hF
  rw [TokenMap.lookup_eq_none_iff]
  intro e he
  rw [hent, List.mem_reverse, List.mem_map] at he
  obtain ⟨i, hi, rfl⟩ := he
  rw [List.mem_range] at hi
  intro heq
  exact absurd (hinj i k (lt_trans hi hk) hk heq) (Nat.ne_of_lt hi)

theorem Filled.len {f : tokenFactory} {L k : Nat} {m : Manager} (hF : Filled f L k m) :
    m.activeTokens.len = k := by
  obtain ⟨_, _, _, _, _, _, hent⟩ := hF
  simp [TokenMap.len, hent]

theorem Filled.lookup {f : tokenFactory} {L k : Nat} {m : Manager} (hF : Filled f L k m)
    {i : Nat} (hi : i < k) : m.activeTokens.lookup (f i).ID = some (f i) := by
  obtain ⟨_, _, _, _, _, _, hent⟩ := hF
  apply TokenMap.lookup_of_mem
  rw [hent, List.mem_reverse, List.mem_map]
  exact ⟨i, List.mem_range.mpr hi, rfl⟩

theorem Filled.acquire {f : tokenFactory} {L k : Nat} {m : Manager} (hF : Filled f L k m)
    (hk : k < L) (hinj : ∀ i j, i < L → j < L → (f i).ID = (f j).ID → i = j) :
    ∃ m', step m .acquire = .ok m' ∧ Filled f L (k + 1) m' ∧
      m'.outChan = m.outChan ++ [f k] := by
  have hfresh := hF.fresh hk hinj
  have hlen := hF.len
  obtain ⟨hf, hlim, hmint, hneed, hsp, hout, hent⟩ := hF
  rcases tryGenerateToken_cases m with ⟨h0, _⟩ | ⟨_, _, hge, _⟩ | ⟨f', hf', _, h1⟩
  · rw [hf] at h0; cases h0
  · rw [hlim, hlen] at hge
    have : (k : Int) < (L : Int) := by exact_mod_cast hk
    omega
  · have hff : f' = f := by
      rw [hf] at hf'
      exact (Option.some.inj hf').symm
    subst hff
    refine ⟨afterMint m f', step_acquire_of_ok h1,
      ⟨hf, hlim, by simp [afterMint, hmint], hneed, hsp, ?_, ?_⟩, ?_⟩
    · simp [afterMint, hmint, hout, List.range_succ]
    · have hfil : m.activeTokens.entries.filter (fun e => e.1 != (f' k).ID) =
          m.activeTokens.entries :=
        congrArg TokenMap.entries (TokenMap.erase_of_lookup_none hfresh)
      simp only [afterMint, TokenMap.insert]
      rw [hmint, hfil, hent]
      simp [List.range_succ]
    · simp [afterMint, hmint]

theorem Filled.init (f : tokenFactory) (L : Nat) : Filled f L 0 (NewManager f ⟨(L : Int)⟩) :=
  ⟨rfl, rfl, rfl, rfl, rfl, rfl, rfl⟩

theorem Filled.run {f : tokenFactory} {L : Nat}
    (hinj : ∀ i j, i < L → j < L → (f i).ID = (f j).ID → i = j) :
    ∀ k, k ≤ L → ∃ m, loop (NewManager f ⟨(L : Int)⟩) (List.replicate k .acquire) = .ok m ∧
      Filled f L k m
  | 0, _ => ⟨_, rfl, Filled.init f L⟩
  | k + 1, hk => by
    obtain ⟨m, hm, hF⟩ := Filled.run hinj k (Nat.le_of_succ_le hk)
    obtain ⟨m', hstep, hF', _⟩ := hF.acquire (Nat.lt_of_succ_le hk) hinj
    refine ⟨m', ?_, hF'⟩
    rw [List.replicate_succ', loop_append_ok _ _ _ _ hm, loop_cons_ok hstep]
    rfl

/-- C11: for every limit `L > 0` and every factory whose first `L` identifiers are
pairwise distinct, the constructor returns a limiter from which, for each `k <= L`, the
first `k` acquire messages each issue a permit: the tokens handed to `outChan` are the
first `k` tokens of the factory, with pairwise distinct identifiers, all tracked in an
active map of size `k`, and the pending count is 0; the `(L+1)`-th acquire message issues
no permit, leaves the active map as it is and sets the pending count to 1. -/
theorem fill_to_limit (L : Nat) (hL : 0 < L) (f : tokenFactory)
    (hinj : ∀ i j, i < L → j < L → (f i).ID = (f j).ID → i = j) :
    ∃ m0, NewMaxConcurrencyRateLimiter f ⟨(L : Int)⟩ = .ok m0 ∧
      (∀ k, k ≤ L → ∃ m, loop m0 (List.replicate k .acquire) = .ok m ∧
        m.outChan = (List.range k).map f ∧
        (m.outChan.map Token.ID).Nodup ∧ m.outChan.Nodup ∧ m.outChan.length = k ∧
        m.activeTokens.len = k ∧
        (∀ i, i < k → m.activeTokens.lookup (f i).ID = some (f i)) ∧
        m.needToken = 0 ∧ m.spawned = 0) ∧
      (∃ mL m', loop m0 (List.replicate L .acquire) = .ok mL ∧
        loop m0 (List.replicate (L + 1) .acquire) = .ok m' ∧
        step mL .acquire = .ok m' ∧
        m'.outChan = mL.outChan ∧ m'.minted = mL.minted ∧
        m'.activeTokens = mL.activeTokens ∧ m'.activeTokens.len = L ∧
        mL.needToken = 0 ∧ m'.needToken = 1) := by
  have hcons : NewMaxConcurrencyRateLimiter f ⟨(L : Int)⟩ = .ok (NewManager f ⟨(L : Int)⟩) := by
    have : ¬ ((L : Int) ≤ 0) := by
      have : (0 : Int) < (L : Int) := by exact_mod_cast hL
      omega
    simp [NewMaxConcurrencyRateLimiter, this]
  refine ⟨_, hcons, fun k hk => ?_, ?_⟩
  · obtain ⟨m, hm, hF⟩ := Filled.run hinj k hk
    have hidn : (m.outChan.map Token.ID).Nodup := by
      rw [hF.2.2.2.2.2.1, List.map_map]
      refine List.Nodup.map_on ?_ (List.nodup_range k)
      intro i hi j hj heq
      rw [List.mem_range] at hi hj
      exact hinj i j (lt_of_lt_of_le hi hk) (lt_of_lt_of_le hj hk) heq
    refine ⟨m, hm, hF.2.2.2.2.2.1, hidn, List.Nodup.of_map _ hidn, ?_, hF.len,
      fun i hi => hF.lookup hi, hF.2.2.2.1, hF.2.2.2.2.1⟩
    simp [hF.2.2.2.2.2.1]
  · obtain ⟨mL, hmL, hF⟩ := Filled.run hinj L (le_refl L)
    have hlen := hF.len
    rcases tryGenerateToken_cases mL with ⟨h0, _⟩ | ⟨_, _, _, h1⟩ | ⟨_, _, hlt, _⟩
    · rw [hF.1] at h0; cases h0
    · have hstep := step_acquire_of_ok h1
      refine ⟨mL, incNeedToken mL, hmL, ?_, hstep, rfl, rfl, rfl, hlen, hF.2.2.2.1, ?_⟩
      · rw [List.replicate_succ', loop_append_ok _ _ _ _ hmL, loop_cons_ok hstep]
        rfl
      · have hlt : mL.needToken < maxInt64 := by
          rw [hF.2.2.2.1]
          decide
        rw [incNeedToken_needToken hlt, hF.2.2.2.1]
        rfl
    · rw [hF.2.1, hlen] at hlt
      exact absurd hlt (lt_irrefl _)

theorem fill_to_limit_witness :
    0 < 2 ∧ (∀ i j, i < 2 → j < 2 → (sampleFactory i).ID = (sampleFactory j).ID → i = j) ∧
    ∃ m0, NewMaxConcurrencyRateLimiter sampleFactory ⟨((2 : Nat) : Int)⟩ = .ok m0 ∧
      (∀ k, k ≤ 2 → ∃ m, loop m0 (List.replicate k .acquire) = .ok m ∧
        m.outChan = (List.range k).map sampleFactory ∧
        (m.outChan.map Token.ID).Nodup ∧ m.outChan.Nodup ∧ m.outChan.length = k ∧
        m.activeTokens.len = k ∧
        (∀ i, i < k → m.activeTokens.lookup (sampleFactory i).ID = some (sampleFactory i)) ∧
        m.needToken = 0 ∧ m.spawned = 0) ∧
      (∃ mL m', loop m0 (List.replicate 2 .acquire) = .ok mL ∧
        loop m0 (List.replicate (2 + 1) .acquire) = .ok m' ∧
        step mL .acquire = .ok m' ∧
        m'.outChan = mL.outChan ∧ m'.minted = mL.minted ∧
        m'.activeTokens = mL.activeTokens ∧ m'.activeTokens.len = 2 ∧
        mL.needToken = 0 ∧ m'.needToken = 1) :=
  have hinj : ∀ i j, i < 2 → j < 2 → (sampleFactory i).ID = (sampleFactory j).ID → i = j := by
    intro i j hi hj
    interval_cases i <;> interval_cases j <;> decide
  ⟨by decide, hinj, fill_to_limit 2 (by decide) sampleFactory hinj⟩

/-! ## Round trip -/

theorem releaseToken_after_mint (m : Manager) (f : tokenFactory) (h0 : m.needToken = 0)
    (hfresh : m.activeTokens.lookup (f m.minted).ID = none) :
    releaseToken (afterMint m f) (some (f m.minted)) =
      { afterMint m f with activeTokens := m.activeTokens } := by
  rcases releaseToken_cases (afterMint m f) (some (f m.minted)) with
    ⟨h, _⟩ | ⟨t, ht, hl, _⟩ | ⟨t, ht, _, hn, _⟩ | ⟨t, ht, _, _, h⟩
  · cases h
  · cases ht
    simp only [afterMint] at hl
    rw [TokenMap.lookup_insert_self] at hl
    cases hl
  · have hn' : (0 : Int) < m.needToken := hn
    rw [h0] at hn'
    exact absurd hn' (lt_irrefl _)
  · cases ht
    rw [h]
    simp only [afterMint]
    rw [TokenMap.erase_insert_of_not_mem _ hfresh]

/-- C12: in a state with `len(activeTokens) < limit`, pending count 0, a factory installed
and the next factory identifier not active, an acquire message issues the factory token;
releasing that token gives back exactly the active map and the pending count from
before the acquire (no grant is started, the limit is unchanged), so the next acquire
message issues a permit again. In particular, for a limit-2 limiter whose first two
identifiers differ, two acquires followed by the release of both permits leave the
active map empty, and two further acquires both issue a permit. -/
theorem acquire_release_round_trip (m : Manager) (f : tokenFactory)
    (hf : m.makeToken = some f) (hlt : (m.activeTokens.len : Int) < m.limit)
    (h0 : m.needToken = 0) (hfresh : m.activeTokens.lookup (f m.minted).ID = none) :
    (∃ a r b, step m .acquire = .ok a ∧ a.outChan = m.outChan ++ [f m.minted] ∧
      step a (.release (some (f m.minted))) = .ok r ∧
      r.activeTokens = m.activeTokens ∧ r.needToken = m.needToken ∧
      r.spawned = m.spawned ∧ r.limit = m.limit ∧ r.minted = m.minted + 1 ∧
      step r .acquire = .ok b ∧ b.outChan = r.outChan ++ [f r.minted] ∧
      b.minted = r.minted + 1 ∧ b.needToken = r.needToken) ∧
    (∀ g : tokenFactory, (g 0).ID ≠ (g 1).ID →
      ∃ s e b, loop (NewManager g ⟨2⟩) [.acquire, .acquire] = .ok s ∧
        s.outChan = [g 0, g 1] ∧ s.activeTokens.len = 2 ∧
        loop s [.release (some (g 0)), .release (some (g 1))] = .ok e ∧
        e.activeTokens = TokenMap.empty ∧ e.needToken = 0 ∧ e.spawned = 0 ∧
        loop e [.acquire, .acquire] = .ok b ∧
        b.outChan = [g 0, g 1, g 2, g 3] ∧ b.needToken = 0) := by
  constructor
  · have ha : step m .acquire = .ok (afterMint m f) := by
      rcases tryGenerateToken_cases m with ⟨h, _⟩ | ⟨_, _, hge, _⟩ | ⟨f', hf', _, h1⟩
      · rw [hf] at h; cases h
      · omega
      · rw [hf] at hf'
        cases hf'
        exact step_acquire_of_ok h1
    have hr := releaseToken_after_mint m f h0 hfresh
    have hb : step { afterMint m f with activeTokens := m.activeTokens } .acquire =
        .ok (afterMint { afterMint m f with activeTokens := m.activeTokens } f) := by
      rcases tryGenerateToken_cases { afterMint m f with activeTokens := m.activeTokens }
        with ⟨h, _⟩ | ⟨_, _, hge, _⟩ | ⟨f', hf', _, h1⟩
      · have h' : m.makeToken = none := h
        rw [hf] at h'; cases h'
      · have hge' : (m.activeTokens.len : Int) ≥ m.limit := hge
        omega
      · have hf'' : m.makeToken = some f' := hf'
        rw [hf] at hf''
        cases hf''
        exact step_acquire_of_ok h1
    refine ⟨afterMint m f, { afterMint m f with activeTokens := m.activeTokens },
      afterMint { afterMint m f with activeTokens := m.activeTokens } f, ha, rfl, ?_,
      rfl, rfl, rfl, rfl, rfl, hb, rfl, rfl, rfl⟩
    simp only [step, hr]
  · intro g hg
    have hg' : (g 1).ID ≠ (g 0).ID := fun h => hg h.symm
    have hs : loop (NewManager g ⟨2⟩) [.acquire, .acquire] =
        .ok (afterMint (afterMint (NewManager g ⟨2⟩) g) g) := by
      simp [loop, step, called, tryGenerateToken, NewManager, isLimitExceeded, TokenMap.len,
        TokenMap.empty, TokenMap.insert, afterMint]
    have he : loop (afterMint (afterMint (NewManager g ⟨2⟩) g) g)
        [.release (some (g 0)), .release (some (g 1))] =
        .ok { afterMint (afterMint (NewManager g ⟨2⟩) g) g with
          activeTokens := TokenMap.empty } := by
      simp [loop, step, releaseToken, NewManager, TokenMap.lookup, TokenMap.erase,
        TokenMap.empty, TokenMap.insert, afterMint, awaitingToken, hg, hg',
        List.find?_cons, List.filter_cons]
    have hb : loop { afterMint (afterMint (NewManager g ⟨2⟩) g) g with
          activeTokens := TokenMap.empty } [.acquire, .acquire] =
        .ok (afterMint (afterMint { afterMint (afterMint (NewManager g ⟨2⟩) g) g with
          activeTokens := TokenMap.empty } g) g) := by
      simp [loop, step, called, tryGenerateToken, NewManager, isLimitExceeded, TokenMap.len,
        TokenMap.empty, TokenMap.insert, afterMint]
    refine ⟨_, _, _, hs, rfl, ?_, he, rfl, rfl, rfl, hb, rfl, rfl⟩
    simp [afterMint, NewManager, TokenMap.len, TokenMap.insert, TokenMap.empty, hg]

theorem acquire_release_round_trip_witness :
    fresh2.makeToken = some sampleFactory ∧ (fresh2.activeTokens.len : Int) < fresh2.limit ∧
    fresh2.needToken = 0 ∧
    fresh2.activeTokens.lookup (sampleFactory fresh2.minted).ID = none ∧
    ((∃ a r b, step fresh2 .acquire = .ok a ∧
      a.outChan = fresh2.outChan ++ [sampleFactory fresh2.minted] ∧
      step a (.release (some (sampleFactory fresh2.minted))) = .ok r ∧
      r.activeTokens = fresh2.activeTokens ∧ r.needToken = fresh2.needToken ∧
      r.spawned = fresh2.spawned ∧ r.limit = fresh2.limit ∧ r.minted = fresh2.minted + 1 ∧
      step r .acquire = .ok b ∧ b.outChan = r.outChan ++ [sampleFactory r.minted] ∧
      b.minted = r.minted + 1 ∧ b.needToken = r.needToken) ∧
    (∀ g : tokenFactory, (g 0).ID ≠ (g 1).ID →
      ∃ s e b, loop (NewManager g ⟨2⟩) [.acquire, .acquire] = .ok s ∧
        s.outChan = [g 0, g 1] ∧ s.activeTokens.len = 2 ∧
        loop s [.release (some (g 0)), .release (some (g 1))] = .ok e ∧
        e.activeTokens = TokenMap.empty ∧ e.needToken = 0 ∧ e.spawned = 0 ∧
        loop e [.acquire, .acquire] = .ok b ∧
        b.outChan = [g 0, g 1, g 2, g 3] ∧ b.needToken = 0)) :=
  ⟨rfl, by decide, rfl, by decide,
    acquire_release_round_trip fresh2 sampleFactory rfl (by decide) rfl (by decide)⟩


/-! ## Which goroutine touches the state -/

/-- C16, code bug: with limit 1, after two acquire messages and the release of the first
permit, the goroutine started by `go m.tryGenerateToken()` passes its limit test. From
there it is that goroutine, not the arbiter loop, which stores the new permit in the
active map; an acquire message, or a release message for a token, handled by the loop
during that write ends in the runtime's fatal error for the map. When an acquire message
was handled before the limit test, it is that goroutine which adds one to the pending
count. -/
theorem grant_goroutine_touches_state :
    (∃ s g, loop (NewManager sampleFactory ⟨1⟩)
        [.acquire, .acquire, .release (some ⟨"t0"⟩), .grantTest] = .ok s ∧
      s.minting = 1 ∧ step s .grantInsert = .ok g ∧
      s.activeTokens.len = 0 ∧ g.activeTokens.len = 1 ∧
      g.activeTokens.lookup "t1" = some ⟨"t1"⟩ ∧ g.activeTokens ≠ s.activeTokens ∧
      step s .acquireRace = .error Abort.concurrentMap ∧
      step s (.releaseRace (some ⟨"t0"⟩)) = .error Abort.concurrentMap) ∧
    loop (NewManager sampleFactory ⟨1⟩)
        [.acquire, .acquire, .release (some ⟨"t0"⟩), .grantTest, .acquireRace] =
      .error Abort.concurrentMap ∧
    (∃ s g, loop (NewManager sampleFactory ⟨1⟩)
        [.acquire, .acquire, .release (some ⟨"t0"⟩), .acquire, .grantTest] = .ok s ∧
      s.queuing = 1 ∧ step s .grantQueue = .ok g ∧ s.needToken = 0 ∧ g.needToken = 1) :=
  ⟨⟨_, _, rfl, rfl, rfl, rfl, rfl, rfl,
      fun h => absurd (congrArg TokenMap.len h) (by decide), rfl, rfl⟩,
    rfl, ⟨_, _, rfl, rfl, rfl, rfl, rfl⟩⟩

end RateLimiter
